import Mathlib

/-!
# lube: median-cut quantiser, nearest-colour mapper and motion warp

A shallow embedding of `lube.c`.  Bytes (`unsigned char`) are natural numbers
below 256, C `int`s are integers, arrays are lists.  Allocation is assumed to
succeed.  An integer division by a zero count, which the C standard leaves
undefined, returns `none`.  The floating-point operations, libm and libc
`qsort` are parameters of the embedding.
-/

set_option autoImplicit false

namespace Lube

/-! ## Data model -/

/-- Colour triple of lube.c (`Color`); every channel is an `unsigned char`. -/
structure Color where
  r : Nat
  g : Nat
  b : Nat
deriving DecidableEq, Repr

/-- Colour box of lube.c (`ColorBox`): the owned slice `colors` and its `count`.
The `average` field is written by `compute_average` only and is modelled as
that function's result. -/
structure ColorBox where
  colors : List Color
  count : Nat
deriving DecidableEq, Repr

/-- Image buffer of lube.c (`Image`): row-major samples and the dimensions. -/
structure Image where
  data : List Nat
  width : Nat
  height : Nat
  channels : Nat
deriving DecidableEq, Repr

/-- All three channels of a colour are bytes. -/
def Color.IsByte (c : Color) : Prop := c.r < 256 ∧ c.g < 256 ∧ c.b < 256

/-- Invariant of an image: three channels, `len(samples) = W·H·C`, samples are bytes. -/
def Image.WellFormed (img : Image) : Prop :=
  img.channels = 3 ∧ img.data.length = img.width * img.height * img.channels ∧
    ∀ v ∈ img.data, v < 256

/-- The fields `width` and `height` are C `int`s. -/
def Image.FitsInt (img : Image) : Prop :=
  img.width ≤ 2147483647 ∧ img.height ≤ 2147483647

/-- Read of `img->data[i]`. -/
def Image.byte (img : Image) (i : Nat) : Nat := img.data.getD i 0

/-- Colour of pixel `i`: the bytes at `i * channels`, `+ 1`, `+ 2`
(the reads of `median_cut` and `create_color_index_buffer`). -/
def pixel_color (frame : Image) (i : Nat) : Color :=
  { r := frame.byte (i * frame.channels)
    g := frame.byte (i * frame.channels + 1)
    b := frame.byte (i * frame.channels + 2) }

/-! ## Nearest-colour mapper (`create_color_index_buffer`) -/

/-- Constant `INT32_MAX` of `stdint.h`. -/
def INT32_MAX : Int := 2147483647

/-- Squared distance `dr * dr + dg * dg + db * db` computed in `int`. -/
def color_dist (p c : Color) : Int :=
  let dr : Int := (p.r : Int) - (c.r : Int)
  let dg : Int := (p.g : Int) - (c.g : Int)
  let db : Int := (p.b : Int) - (c.b : Int)
  dr * dr + dg * dg + db * db

/-- Inner loop of `create_color_index_buffer` over the remaining colour-map
entries; `c` is the loop index, `minDist` and `bestIndex` the loop state. -/
def nearest_scan (p : Color) : List Color → Nat → Int → Nat → Nat
  | [], _, _, bestIndex => bestIndex
  | col :: rest, c, minDist, bestIndex =>
      let dist := color_dist p col
      if dist < minDist then nearest_scan p rest (c + 1) dist c
      else nearest_scan p rest (c + 1) minDist bestIndex

/-- Value of `bestIndex` after the inner loop, started at `INT32_MAX` and `0`. -/
def nearest_index (p : Color) (colormap : List Color) : Nat :=
  nearest_scan p colormap 0 INT32_MAX 0

/-- Function `create_color_index_buffer`: one `GifByteType` per pixel; the store
`buffer[i] = bestIndex` truncates to a byte. -/
def create_color_index_buffer (frame : Image) (colormap : List Color) : List Nat :=
  (List.range (frame.width * frame.height)).map fun i =>
    nearest_index (pixel_color frame i) colormap % 256

/-! ## Median-cut quantiser -/

/-- Comparator `compare_r`. -/
def compare_r (a b : Color) : Int := (a.r : Int) - (b.r : Int)

/-- Comparator `compare_g`. -/
def compare_g (a b : Color) : Int := (a.g : Int) - (b.g : Int)

/-- Comparator `compare_b`. -/
def compare_b (a b : Color) : Int := (a.b : Int) - (b.b : Int)

/-- The six out-parameters of `find_color_range`. -/
structure ColorRange where
  r_min : Int
  r_max : Int
  g_min : Int
  g_max : Int
  b_min : Int
  b_max : Int
deriving DecidableEq, Repr

/-- Body of the loop of `find_color_range` for one colour. -/
def find_color_range_step (acc : ColorRange) (c : Color) : ColorRange :=
  { r_min := if (c.r : Int) < acc.r_min then (c.r : Int) else acc.r_min
    r_max := if (c.r : Int) > acc.r_max then (c.r : Int) else acc.r_max
    g_min := if (c.g : Int) < acc.g_min then (c.g : Int) else acc.g_min
    g_max := if (c.g : Int) > acc.g_max then (c.g : Int) else acc.g_max
    b_min := if (c.b : Int) < acc.b_min then (c.b : Int) else acc.b_min
    b_max := if (c.b : Int) > acc.b_max then (c.b : Int) else acc.b_max }

/-- Function `find_color_range`: minima start at 255, maxima at 0, and the
first `count` colours of the box are scanned. -/
def find_color_range (box : ColorBox) : ColorRange :=
  (box.colors.take box.count).foldl find_color_range_step
    { r_min := 255, r_max := 0, g_min := 255, g_max := 0, b_min := 255, b_max := 0 }

/-- Value of `sort_channel` in `split_box`: 0 = R, 1 = G, 2 = B. -/
def sort_channel (input_box : ColorBox) : Nat :=
  let rg := find_color_range input_box
  let r_range := rg.r_max - rg.r_min
  let g_range := rg.g_max - rg.g_min
  let b_range := rg.b_max - rg.b_min
  if g_range ≥ r_range ∧ g_range ≥ b_range then 1
  else if b_range ≥ r_range ∧ b_range ≥ g_range then 2
  else 0

/-- Comparator handed to `qsort` for a sort channel. -/
def channel_compare (ch : Nat) : Color → Color → Int :=
  if ch = 0 then compare_r else if ch = 1 then compare_g else compare_b

/-- Function `split_box`, for a given libc `qsort`: the first `count` colours
are sorted in place, the first `count / 2` go to `box1` and the remaining
`count - count / 2` to `box2`. -/
def split_box (qsort : (Color → Color → Int) → List Color → List Color)
    (input_box : ColorBox) : ColorBox × ColorBox :=
  let sorted := qsort (channel_compare (sort_channel input_box))
      (input_box.colors.take input_box.count) ++ input_box.colors.drop input_box.count
  let median := input_box.count / 2
  ({ colors := sorted.take median, count := median },
   { colors := (sorted.drop median).take (input_box.count - median),
     count := input_box.count - median })

/-- Function `compute_average`: channel sums divided by `count` and cast to a
byte; a zero `count` is a division by zero (`none`). -/
def compute_average (box : ColorBox) : Option Color :=
  let cs := box.colors.take box.count
  let r_total := (cs.map Color.r).sum
  let g_total := (cs.map Color.g).sum
  let b_total := (cs.map Color.b).sum
  if box.count = 0 then none
  else some { r := r_total / box.count % 256
              g := g_total / box.count % 256
              b := b_total / box.count % 256 }

/-- Value of `range` for one box in the selection loop of `median_cut`. -/
def box_range (box : ColorBox) : Int :=
  let rg := find_color_range box
  let range := if (rg.r_max - rg.r_min) > (rg.g_max - rg.g_min)
    then (rg.r_max - rg.r_min) else (rg.g_max - rg.g_min)
  if range > (rg.b_max - rg.b_min) then range else (rg.b_max - rg.b_min)

/-- Selection loop of `median_cut` over the remaining boxes; `i` is the loop
index, `max_range` and `box_to_split` the loop state. -/
def select_box_scan : List ColorBox → Nat → Int → Int → Int
  | [], _, _, box_to_split => box_to_split
  | box :: rest, i, max_range, box_to_split =>
      if box_range box > max_range then select_box_scan rest (i + 1) (box_range box) (i : Int)
      else select_box_scan rest (i + 1) max_range box_to_split

/-- Value of `box_to_split` after the selection loop, started at `-1`, `-1`. -/
def select_box (boxes : List ColorBox) : Int :=
  select_box_scan boxes 0 (-1) (-1)

/-- One pass through the body of `while (box_count < color_depth)`;
`none` when the loop is left (condition false, or `break`).  The list holds
the first `box_count` entries of `boxes`. -/
def median_cut_step (qsort : (Color → Color → Int) → List Color → List Color)
    (color_depth : Nat) (boxes : List ColorBox) : Option (List ColorBox) :=
  if boxes.length < color_depth then
    let box_to_split := select_box boxes
    if box_to_split = -1 then none
    else
      let split := split_box qsort (boxes.getD box_to_split.toNat { colors := [], count := 0 })
      some (boxes.set box_to_split.toNat split.1 ++ [split.2])
  else none

/-- The splitting loop of `median_cut` run for at most `fuel` iterations. -/
def median_cut_loop (qsort : (Color → Color → Int) → List Color → List Color)
    (color_depth : Nat) : Nat → List ColorBox → List ColorBox
  | 0, boxes => boxes
  | fuel + 1, boxes =>
      match median_cut_step qsort color_depth boxes with
      | none => boxes
      | some boxes' => median_cut_loop qsort color_depth fuel boxes'

/-- The array `all_colors` of `median_cut`. -/
def all_colors (frame : Image) : List Color :=
  (List.range (frame.width * frame.height)).map (pixel_color frame)

/-- The box `initial_box` of `median_cut`. -/
def initial_box (frame : Image) : ColorBox :=
  { colors := all_colors frame, count := frame.width * frame.height }

/-- The boxes when the splitting loop of `median_cut` has ended (the loop runs
at most `color_depth - 1` times, so `color_depth` iterations of fuel suffice). -/
def median_cut_boxes (qsort : (Color → Color → Int) → List Color → List Color)
    (frame : Image) (color_depth : Nat) : List ColorBox :=
  median_cut_loop qsort color_depth color_depth [initial_box frame]

/-- Function `median_cut`: the colour map holds the average of every box, in
box order; `none` when `compute_average` divides by zero.  The giflib call
`GifMakeMapObject` is taken to succeed. -/
def median_cut (qsort : (Color → Color → Int) → List Color → List Color)
    (frame : Image) (color_depth : Nat) : Option (List Color) :=
  (median_cut_boxes qsort frame color_depth).mapM compute_average

/-- A model of libc `qsort`: a stable insertion sort by the comparator. -/
def qsort_model (cmp : Color → Color → Int) (l : List Color) : List Color :=
  List.insertionSort (fun a b => cmp a b ≤ 0) l

/-- What the quantiser needs of `qsort`: the result is a rearrangement of the input. -/
def QsortPermutes (qsort : (Color → Color → Int) → List Color → List Color) : Prop :=
  ∀ cmp l, List.Perm (qsort cmp l) l

/-- The colours held by a collection of boxes, as a multiset (duplicates retained). -/
def boxes_multiset (boxes : List ColorBox) : Multiset Color :=
  (boxes.map fun b => (b.colors : Multiset Color)).sum

/-- The 4x1 frame black, red, green, blue. -/
def frame_four : Image :=
  { data := [0, 0, 0, 255, 0, 0, 0, 255, 0, 0, 0, 255], width := 4, height := 1, channels := 3 }

/-- The 8x8 frame of solid grey (128, 128, 128). -/
def frame_gray : Image :=
  { data := List.replicate 192 128, width := 8, height := 8, channels := 3 }

/-- The 1x1 frame whose only pixel is (128, 128, 128). -/
def frame_pixel : Image :=
  { data := [128, 128, 128], width := 1, height := 1, channels := 3 }

/-- The colours of `frame_four` in the order black, blue, red, green. -/
def palette_four : List Color :=
  [⟨0, 0, 0⟩, ⟨0, 0, 255⟩, ⟨255, 0, 0⟩, ⟨0, 255, 0⟩]

/-! ## Motion warp (`calculate_displacement`, `amplify_motion`)

A `float` or `double` is modelled by the rational number it holds; `none`
stands for a value that is not a finite number (NaN, or an infinity).  The
parts of the C environment that are not in lube.c are taken from a `FloatEnv`:
the rounding of an exact result to `float` and to `double`, the libm functions
`sqrtf`, `powf`, `sinf`, and the `int` that the platform yields for a
conversion the C standard leaves undefined.  Every `float` operation of the
source is rounded separately.  The definitions describe the computations whose
`float` results are finite: a result beyond `FLT_MAX`, which the hardware turns
into an infinity, is not modelled. -/

/-- Motion region of lube.c (`MotionRegion`). -/
structure MotionRegion where
  x : Int
  y : Int
  radius : Int
  dx : ℚ
  dy : ℚ
  frequency : ℚ
  falloff : ℚ
deriving DecidableEq

/-- The floating-point environment lube.c is compiled against. -/
structure FloatEnv where
  /-- rounding of an exact result to `float` -/
  rnd32 : ℚ → ℚ
  /-- rounding of an exact result to `double` -/
  rnd64 : ℚ → ℚ
  /-- libm `sqrtf` -/
  sqrtf : ℚ → ℚ
  /-- libm `powf` on finite arguments; `none` when the result is not finite -/
  powf : ℚ → ℚ → Option ℚ
  /-- libm `sinf` -/
  sinf : ℚ → ℚ
  /-- result of `(int)` on a NaN (`none`) or on a value outside the range of `int` -/
  ub_int : Option ℚ → Int

/-- Constant `M_PI` of `math.h`: the `double` nearest to π. -/
def M_PI : ℚ := 884279719003555 / 281474976710656

/-- Constant `FLT_MAX` of `float.h`: the largest finite `float`, `2^128 - 2^104`. -/
def FLT_MAX : ℚ := 340282346638528859811704183484516925440

/-- Constant `INT_MIN`. -/
def INT_MIN : Int := -2147483648

/-- Constant `INT_MAX`. -/
def INT_MAX : Int := 2147483647

/-- A `float` product. -/
def FloatEnv.mul (env : FloatEnv) (a b : Option ℚ) : Option ℚ :=
  match a, b with
  | some p, some q => some (env.rnd32 (p * q))
  | _, _ => none

/-- A `float` sum. -/
def FloatEnv.add (env : FloatEnv) (a b : Option ℚ) : Option ℚ :=
  match a, b with
  | some p, some q => some (env.rnd32 (p + q))
  | _, _ => none

/-- A `float` difference. -/
def FloatEnv.sub (env : FloatEnv) (a b : Option ℚ) : Option ℚ :=
  match a, b with
  | some p, some q => some (env.rnd32 (p - q))
  | _, _ => none

/-- A `float` quotient of finite numbers; a zero divisor gives NaN or an infinity. -/
def FloatEnv.div (env : FloatEnv) (p q : ℚ) : Option ℚ :=
  if q = 0 then none else some (env.rnd32 (p / q))

/-- Call of `powf(base, exponent)` with a finite exponent: `powf` of a number
that is not finite is 1 for a zero exponent (C Annex F) and is not finite otherwise. -/
def FloatEnv.pow (env : FloatEnv) (base : Option ℚ) (exponent : ℚ) : Option ℚ :=
  match base with
  | some q => env.powf q exponent
  | none => if exponent = 0 then some 1 else none

/-- Truncation toward zero, the rounding of the C conversion from `float` to `int`. -/
def trunc (q : ℚ) : Int := if 0 ≤ q then ⌊q⌋ else ⌈q⌉

/-- The conversion `(int)v` of a `float`. -/
def FloatEnv.to_int (env : FloatEnv) (v : Option ℚ) : Int :=
  match v with
  | some q => if INT_MIN ≤ trunc q ∧ trunc q ≤ INT_MAX then trunc q else env.ub_int (some q)
  | none => env.ub_int none

/-- Two's-complement wrap of an `int` result. -/
def wrap32 (n : Int) : Int := (n + 2147483648) % 4294967296 - 2147483648

/-- Function `calculate_displacement`, for operands whose `float` product
`phase * region->frequency` is finite; beyond `FLT_MAX` that product is an
infinity and `sinf` of it is a NaN, which this definition does not describe. -/
def calculate_displacement (env : FloatEnv) (x y : Int) (region : MotionRegion)
    (phase : ℚ) : Option ℚ :=
  let dx := env.rnd32 ((x - region.x : Int) : ℚ)
  let dy := env.rnd32 ((y - region.y : Int) : ℚ)
  let distance := env.sqrtf (env.rnd32 (env.rnd32 (dx * dx) + env.rnd32 (dy * dy)))
  if distance > env.rnd32 (region.radius : ℚ) then some 0
  else
    let influence := env.sub (some 1)
      (env.pow (env.div distance (env.rnd32 (region.radius : ℚ))) region.falloff)
    let motion := env.sinf (env.rnd32 (phase * region.frequency))
    env.mul influence (some motion)

/-- What one region adds to the totals at pixel `(x, y)`: the products
`disp * regions[r].dx` and `disp * regions[r].dy`. -/
def region_contribution (env : FloatEnv) (x y : Int) (phase : ℚ)
    (region : MotionRegion) : Option ℚ × Option ℚ :=
  let disp := calculate_displacement env x y region phase
  (env.mul disp (some region.dx), env.mul disp (some region.dy))

/-- Body of the loop over the regions in `amplify_motion`; the state is
`(total_dx, total_dy)`. -/
def accumulate_step (env : FloatEnv) (x y : Int) (phase : ℚ)
    (total : Option ℚ × Option ℚ) (region : MotionRegion) : Option ℚ × Option ℚ :=
  (env.add total.1 (region_contribution env x y phase region).1,
   env.add total.2 (region_contribution env x y phase region).2)

/-- The pair `(total_dx, total_dy)` after the loop over the first `num_regions` regions. -/
def total_displacement (env : FloatEnv) (regions : List MotionRegion) (num_regions : Nat)
    (phase : ℚ) (x y : Int) : Option ℚ × Option ℚ :=
  (regions.take num_regions).foldl (accumulate_step env x y phase) (some 0, some 0)

/-- The integer offset `(int)(total + 0.5f)` added to a destination coordinate. -/
def round_offset (env : FloatEnv) (total : Option ℚ) : Int :=
  env.to_int (env.add total (some (1 / 2)))

/-- The clamp `s < 0 ? 0 : (s >= w ? w - 1 : s)` of a source coordinate. -/
def clamp_coord (s w : Int) : Int :=
  if s < 0 then 0 else if s ≥ w then w - 1 else s

/-- The source coordinate `(src_x, src_y)` that destination pixel `(x, y)` pulls
from, given the rounded offsets. -/
def source_coord (src : Image) (x y : Nat) (off_x off_y : Int) : Int × Int :=
  (clamp_coord (wrap32 ((x : Int) + off_x)) (src.width : Int),
   clamp_coord (wrap32 ((y : Int) + off_y)) (src.height : Int))

/-- The source coordinate used by `amplify_motion` for pixel `(x, y)` at a phase. -/
def warp_coord (env : FloatEnv) (src : Image) (regions : List MotionRegion)
    (num_regions : Nat) (phase : ℚ) (x y : Nat) : Int × Int :=
  let total := total_displacement env regions num_regions phase (x : Int) (y : Int)
  source_coord src x y (round_offset env total.1) (round_offset env total.2)

/-- The value `(src_y * width + src_x) * channels` for a source coordinate, as
an exact integer: the position in the sample array that the `memcpy` reads from. -/
def src_offset (src : Image) (c : Int × Int) : Int :=
  (c.2 * (src.width : Int) + c.1) * (src.channels : Int)

/-- The `channels` bytes that the `memcpy` stores for destination pixel `(x, y)`. -/
def warp_pixel (env : FloatEnv) (src : Image) (regions : List MotionRegion)
    (num_regions : Nat) (phase : ℚ) (y x : Nat) : List Nat :=
  (src.data.drop (src_offset src (warp_coord env src regions num_regions phase x y)).toNat).take
    src.channels

/-- The sample array of one frame: rows `y`, in each row pixels `x`, in the
order of the destination offsets `(y * width + x) * channels`. -/
def warp_data (env : FloatEnv) (src : Image) (regions : List MotionRegion)
    (num_regions : Nat) (phase : ℚ) : List Nat :=
  ((List.range src.height).map fun y =>
    ((List.range src.width).map fun x =>
      warp_pixel env src regions num_regions phase y x).flatten).flatten

/-- The value `phase` of frame `f`: `(2.0f * M_PI * f) / frame_count` computed
in `double` (the product `2.0f * M_PI` is exact, the product with `f` and the
quotient are rounded) and stored in a `float`. -/
def frame_phase (env : FloatEnv) (f frame_count : Nat) : ℚ :=
  env.rnd32 (env.rnd64 (env.rnd64 (2 * M_PI * (f : ℚ)) / (frame_count : ℚ)))

/-- Frame `f` of `amplify_motion` (also for `f = frame_count`, the frame that
would follow the last one). -/
def warp_frame (env : FloatEnv) (src : Image) (frame_count : Nat)
    (regions : List MotionRegion) (num_regions : Nat) (f : Nat) : Image :=
  { data := warp_data env src regions num_regions (frame_phase env f frame_count)
    width := src.width
    height := src.height
    channels := src.channels }

/-- Function `amplify_motion`: the frames `0 .. frame_count - 1`. -/
def amplify_motion (env : FloatEnv) (src : Image) (frame_count : Nat)
    (regions : List MotionRegion) (num_regions : Nat) : List Image :=
  (List.range frame_count).map (warp_frame env src frame_count regions num_regions)

/-- Facts of IEEE 754 arithmetic and of a C Annex F libm that the proofs about
the warp rely on. -/
structure FloatEnv.Sound (env : FloatEnv) : Prop where
  /-- rounding to `float` is monotone -/
  rnd32_mono : ∀ p q : ℚ, p ≤ q → env.rnd32 p ≤ env.rnd32 q
  /-- multiples of `2^-20` of magnitude at most 16 are `float`s -/
  rnd32_dyadic : ∀ n : Int, -16777216 ≤ n → n ≤ 16777216 →
    env.rnd32 ((n : ℚ) / 1048576) = (n : ℚ) / 1048576
  /-- zero is a `double` -/
  rnd64_zero : env.rnd64 0 = 0
  /-- `sinf(0)` is 0 -/
  sinf_zero : env.sinf 0 = 0
  /-- `sqrtf` of a non-negative number is non-negative -/
  sqrtf_nonneg : ∀ q : ℚ, 0 ≤ q → 0 ≤ env.sqrtf q
  /-- `sqrtf` of a number that is at least 1 is positive -/
  sqrtf_pos : ∀ q : ℚ, 1 ≤ q → 0 < env.sqrtf q
  /-- `powf` of a base in `[0, 1]` with a positive exponent is a finite number in `[0, 1]` -/
  powf_unit : ∀ a p : ℚ, 0 ≤ a → a ≤ 1 → 0 < p → ∃ v : ℚ, env.powf a p = some v ∧ 0 ≤ v ∧ v ≤ 1

/-- Sine polynomial of degree 11 used by the reference environment. -/
def sin_poly (t : ℚ) : ℚ :=
  t - t ^ 3 / 6 + t ^ 5 / 120 - t ^ 7 / 5040 + t ^ 9 / 362880 - t ^ 11 / 39916800

/-- Reference `sinf`: reduction of the argument to `[-π/2, π/2]`, then `sin_poly`. -/
def ref_sinf (x : ℚ) : ℚ :=
  let r := x - (round (x / (2 * M_PI)) : ℚ) * (2 * M_PI)
  if r > M_PI / 2 then sin_poly (M_PI - r)
  else if r < -(M_PI / 2) then sin_poly (-M_PI - r)
  else sin_poly r

/-- Reference `sqrtf`: the square root truncated to 20 binary digits. -/
def ref_sqrtf (q : ℚ) : ℚ := (Nat.sqrt ⌊q * 1099511627776⌋.toNat : ℚ) / 1048576

/-- Reference `powf`: exact for the natural exponents, such as the falloff 2;
`powf(0, p)` with a negative `p` is a pole. -/
def ref_powf (a p : ℚ) : Option ℚ :=
  if a = 0 ∧ p < 0 then none else some (a ^ ⌊p⌋.toNat)

/-- A reference environment with exact arithmetic (no rounding error), used to
instantiate the theorems; conversions outside `int` give `INT_MIN` as on x86. -/
def ref_env : FloatEnv :=
  { rnd32 := fun q => q
    rnd64 := fun q => q
    sqrtf := ref_sqrtf
    powf := ref_powf
    sinf := ref_sinf
    ub_int := fun _ => INT_MIN }

/-- A region as `select_regions` makes it in motion mode 2, centred on pixel
(1, 0) with radius 1. -/
def region_picked : MotionRegion :=
  { x := 1, y := 0, radius := 1, dx := 15, dy := 10, frequency := 1, falloff := 2 }

/-- A region of radius 0 and of zero amplitude centred on pixel (1, 0). -/
def region_zero : MotionRegion :=
  { x := 1, y := 0, radius := 0, dx := 0, dy := 0, frequency := 1, falloff := 2 }

/-- A region of zero amplitude and radius 1 centred on pixel (1, 0). -/
def region_still : MotionRegion :=
  { x := 1, y := 0, radius := 1, dx := 0, dy := 0, frequency := 1, falloff := 2 }

/-- A region of frequency 1/4 centred on pixel (0, 0). -/
def region_quarter : MotionRegion :=
  { x := 0, y := 0, radius := 1, dx := 15, dy := 0, frequency := 1 / 4, falloff := 2 }

/-- The 2x1 image with pixels (10, 20, 30) and (40, 50, 60). -/
def frame_pair : Image :=
  { data := [10, 20, 30, 40, 50, 60], width := 2, height := 1, channels := 3 }

/-- The region of the gradient scenario: centre (50, 50), radius 40, vertical
amplitude 10. -/
def region_vertical : MotionRegion :=
  { x := 50, y := 50, radius := 40, dx := 0, dy := 10, frequency := 1, falloff := 2 }

/-- A 100x100 image. -/
def frame_hundred : Image :=
  { data := List.replicate 30000 0, width := 100, height := 100, channels := 3 }

/-! ## Sorting by a channel, and the GIF writer (`write_gif`) -/

/-- Value of `r_range` in `split_box`. -/
def r_range (input_box : ColorBox) : Int :=
  (find_color_range input_box).r_max - (find_color_range input_box).r_min

/-- Value of `g_range` in `split_box`. -/
def g_range (input_box : ColorBox) : Int :=
  (find_color_range input_box).g_max - (find_color_range input_box).g_min

/-- Value of `b_range` in `split_box`. -/
def b_range (input_box : ColorBox) : Int :=
  (find_color_range input_box).b_max - (find_color_range input_box).b_min

/-- The channel of a colour that a sort channel refers to: 0 = R, 1 = G, 2 = B. -/
def channel_value (ch : Nat) (c : Color) : Nat :=
  if ch = 0 then c.r else if ch = 1 then c.g else c.b

/-- The range of a box in the channel that a sort channel refers to. -/
def channel_range (input_box : ColorBox) (ch : Nat) : Int :=
  if ch = 0 then r_range input_box else if ch = 1 then g_range input_box
  else b_range input_box

/-- The numbers `lo` and `hi` are the least and the greatest value of `f` over `cs`. -/
def IsMinMax (f : Color → Nat) (cs : List Color) (lo hi : Int) : Prop :=
  (∀ c ∈ cs, lo ≤ (f c : Int) ∧ (f c : Int) ≤ hi) ∧
  (∃ c ∈ cs, (f c : Int) = lo) ∧ (∃ c ∈ cs, (f c : Int) = hi)

/-- What the C standard says of `qsort`, for the three comparators of lube.c:
the result is a rearrangement of the input in which no element compares
greater than a later one.  The order of elements that compare equal is left open. -/
def QsortSorts (qsort : (Color → Color → Int) → List Color → List Color) : Prop :=
  ∀ (ch : Nat) (l : List Color),
    List.Perm (qsort (channel_compare ch) l) l ∧
    List.Pairwise (fun a b => channel_compare ch a b ≤ 0) (qsort (channel_compare ch) l)

/-- The colour (0, 0, 0). -/
def black : Color := ⟨0, 0, 0⟩

/-- The colour (255, 0, 0). -/
def red : Color := ⟨255, 0, 0⟩

/-- The colour (0, 255, 0). -/
def green : Color := ⟨0, 255, 0⟩

/-- The colour (0, 0, 255). -/
def blue : Color := ⟨0, 0, 255⟩

/-- Constant `COLOR_DEPTH` of lube.c. -/
def COLOR_DEPTH : Nat := 256

/-- Constant `GRAPHICS_EXT_FUNC_CODE` of gif_lib.h. -/
def GRAPHICS_EXT_FUNC_CODE : Nat := 0xf9

/-- Constant `APPLICATION_EXT_FUNC_CODE` of gif_lib.h. -/
def APPLICATION_EXT_FUNC_CODE : Nat := 0xff

/-- A call that `write_gif` makes to giflib, with the arguments it hands over. -/
inductive GifCall where
  | EGifOpenFileName : GifCall
  | EGifPutScreenDesc (Width Height ColorRes BackGround : Nat) (ColorMap : List Color) : GifCall
  | EGifPutExtension (ExtCode ExtLen : Nat) (Extension : List Nat) : GifCall
  | EGifPutImageDesc (Left Top Width Height : Nat) (Interlace : Bool) : GifCall
  | EGifPutLine (Line : List Nat) (LineLen : Nat) : GifCall
  | EGifCloseFile : GifCall
deriving DecidableEq, Repr

/-- The array `app_ext` of `write_gif`: 11, the characters of `NETSCAPE2.0`, 3, 1, 0, 0. -/
def app_ext : List Nat := [11, 78, 69, 84, 83, 67, 65, 80, 69, 50, 46, 48, 3, 1, 0, 0]

/-- The array `gce` of `write_gif` for a non-negative `delay_time`:
`4, 0x04, delay_time & 0xFF, (delay_time >> 8) & 0xFF, 0`. -/
def gce (delay_time : Nat) : List Nat :=
  [4, 0x04, delay_time % 256, delay_time / 256 % 256, 0]

/-- The calls of one pass through the frame loop of `write_gif`; the length
handed to `EGifPutExtension` is `sizeof(gce)`, which is 5. -/
def write_gif_frame (colormap : List Color) (frame : Image) (delay_time : Nat) :
    List GifCall :=
  let indexed := create_color_index_buffer frame colormap
  [GifCall.EGifPutExtension GRAPHICS_EXT_FUNC_CODE 5 (gce delay_time),
   GifCall.EGifPutImageDesc 0 0 frame.width frame.height false] ++
  (List.range frame.height).map fun y =>
    GifCall.EGifPutLine ((indexed.drop (y * frame.width)).take frame.width) frame.width

/-- Function `write_gif`, as the sequence of giflib calls it makes when every
giflib call succeeds: `ok` when the file is written, `error` when the process
exits because `median_cut` gave no colour map. -/
def write_gif (qsort : (Color → Color → Int) → List Color → List Color)
    (frames : List Image) (frame_count delay_time : Nat) :
    Except (List GifCall) (List GifCall) :=
  let first := frames.getD 0 { data := [], width := 0, height := 0, channels := 0 }
  match median_cut qsort first COLOR_DEPTH with
  | none => Except.error [GifCall.EGifOpenFileName, GifCall.EGifCloseFile]
  | some colormap =>
      Except.ok
        ([GifCall.EGifOpenFileName,
          GifCall.EGifPutScreenDesc first.width first.height 8 0 colormap,
          GifCall.EGifPutExtension APPLICATION_EXT_FUNC_CODE 16 app_ext] ++
         (List.range frame_count).flatMap (fun i =>
            write_gif_frame colormap
              (frames.getD i { data := [], width := 0, height := 0, channels := 0 })
              delay_time) ++
         [GifCall.EGifCloseFile])

/-- The graphics-control extensions among the calls. -/
def graphics_extensions (calls : List GifCall) : List GifCall :=
  calls.filter fun c =>
    match c with
    | GifCall.EGifPutExtension code _ _ => code == GRAPHICS_EXT_FUNC_CODE
    | _ => false

/-- The graphics-control extensions and the image descriptors among the calls. -/
def extensions_and_descriptors (calls : List GifCall) : List GifCall :=
  calls.filter fun c =>
    match c with
    | GifCall.EGifPutExtension code _ _ => code == GRAPHICS_EXT_FUNC_CODE
    | GifCall.EGifPutImageDesc _ _ _ _ _ => true
    | _ => false

/-- The 16x16 frame whose pixel `i` is `(i, 0, 0)`: 256 different colours. -/
def frame_ramp : Image :=
  { data := (List.range 256).flatMap (fun i => [i, 0, 0]), width := 16, height := 16,
    channels := 3 }

/-! ## Theorems: nearest-colour mapper -/

theorem color_dist_nonneg (p c : Color) : 0 ≤ color_dist p c := by
  unfold color_dist
  have h1 := mul_self_nonneg ((p.r : Int) - (c.r : Int))
  have h2 := mul_self_nonneg ((p.g : Int) - (c.g : Int))
  have h3 := mul_self_nonneg ((p.b : Int) - (c.b : Int))
  simp only []
  linarith

theorem color_dist_le (p c : Color) (hp : p.IsByte) (hc : c.IsByte) :
    color_dist p c ≤ 3 * 255 ^ 2 := by
  obtain ⟨h1, h2, h3⟩ := hp
  obtain ⟨h4, h5, h6⟩ := hc
  unfold color_dist
  have sq : ∀ a b : Nat, a < 256 → b < 256 →
      ((a : Int) - (b : Int)) * ((a : Int) - (b : Int)) ≤ 255 ^ 2 := by
    intro a b ha hb
    have h1 : (a : Int) - b ≤ 255 := by omega
    have h2 : -255 ≤ (a : Int) - b := by omega
    nlinarith
  have := sq _ _ h1 h4
  have := sq _ _ h2 h5
  have := sq _ _ h3 h6
  simp only []
  linarith

/-- The inner loop either keeps its state (nothing strictly closer was seen) or
ends at the first position of the strictly smallest distance. -/
theorem nearest_scan_spec (p : Color) (rest : List Color) :
    ∀ (c : Nat) (minDist : Int) (bestIndex : Nat),
      (nearest_scan p rest c minDist bestIndex = bestIndex ∧
        ∀ (i : Nat) (hi : i < rest.length), minDist ≤ color_dist p rest[i]) ∨
      (∃ (j : Nat) (hj : j < rest.length),
        nearest_scan p rest c minDist bestIndex = c + j ∧
        color_dist p rest[j] < minDist ∧
        (∀ (i : Nat) (hi : i < rest.length), color_dist p rest[j] ≤ color_dist p rest[i]) ∧
        (∀ (i : Nat) (hi : i < rest.length), i < j → color_dist p rest[j] < color_dist p rest[i])) := by
  induction rest with
  | nil =>
      intro c minDist bestIndex
      left
      exact ⟨rfl, fun i hi => absurd hi (by simp)⟩
  | cons col rest ih =>
      intro c minDist bestIndex
      by_cases hlt : color_dist p col < minDist
      · have hstep : nearest_scan p (col :: rest) c minDist bestIndex =
            nearest_scan p rest (c + 1) (color_dist p col) c := by
          simp [nearest_scan, hlt]
        rcases ih (c + 1) (color_dist p col) c with ⟨hk, hall⟩ | ⟨j, hj, hk, hjlt, hmin, hfirst⟩
        · right
          refine ⟨0, by simp, ?_, ?_, ?_, ?_⟩
          · rw [hstep, hk]; rfl
          · simpa using hlt
          · intro i hi
            cases i with
            | zero => simp
            | succ i =>
                simp only [List.length_cons, Nat.add_lt_add_iff_right] at hi
                simpa using hall i hi
          · intro i hi hi0
            exact absurd hi0 (Nat.not_lt_zero i)
        · right
          refine ⟨j + 1, by simpa using hj, ?_, ?_, ?_, ?_⟩
          · rw [hstep, hk]; omega
          · simpa using lt_trans hjlt hlt
          · intro i hi
            cases i with
            | zero => simpa using le_of_lt hjlt
            | succ i =>
                simp only [List.length_cons, Nat.add_lt_add_iff_right] at hi
                simpa using hmin i hi
          · intro i hi hij
            cases i with
            | zero => simpa using hjlt
            | succ i =>
                simp only [List.length_cons, Nat.add_lt_add_iff_right] at hi
                simpa using hfirst i hi (by omega)
      · have hstep : nearest_scan p (col :: rest) c minDist bestIndex =
            nearest_scan p rest (c + 1) minDist bestIndex := by
          simp [nearest_scan, hlt]
        rcases ih (c + 1) minDist bestIndex with ⟨hk, hall⟩ | ⟨j, hj, hk, hjlt, hmin, hfirst⟩
        · left
          refine ⟨by rw [hstep, hk], ?_⟩
          intro i hi
          cases i with
          | zero => simpa using not_lt.mp hlt
          | succ i =>
              simp only [List.length_cons, Nat.add_lt_add_iff_right] at hi
              simpa using hall i hi
        · right
          refine ⟨j + 1, by simpa using hj, ?_, ?_, ?_, ?_⟩
          · rw [hstep, hk]; omega
          · simpa using hjlt
          · intro i hi
            cases i with
            | zero => simpa using le_of_lt (lt_of_lt_of_le hjlt (not_lt.mp hlt))
            | succ i =>
                simp only [List.length_cons, Nat.add_lt_add_iff_right] at hi
                simpa using hmin i hi
          · intro i hi hij
            cases i with
            | zero => simpa using lt_of_lt_of_le hjlt (not_lt.mp hlt)
            | succ i =>
                simp only [List.length_cons, Nat.add_lt_add_iff_right] at hi
                simpa using hfirst i hi (by omega)

theorem Image.byte_lt (img : Image) (h : img.WellFormed) (i : Nat) : img.byte i < 256 := by
  unfold Image.byte
  by_cases hi : i < img.data.length
  · rw [List.getD_eq_getElem _ _ hi]
    exact h.2.2 _ (List.getElem_mem hi)
  · rw [List.getD_eq_default _ _ (not_lt.mp hi)]
    decide

theorem pixel_color_isByte (frame : Image) (h : frame.WellFormed) (i : Nat) :
    (pixel_color frame i).IsByte :=
  ⟨Image.byte_lt frame h _, Image.byte_lt frame h _, Image.byte_lt frame h _⟩

/-- On a non-empty colour map of byte colours, `bestIndex` ends at the lowest
index of the smallest squared distance. -/
theorem nearest_index_spec (p : Color) (colormap : List Color) (hp : p.IsByte)
    (hne : colormap ≠ []) (hpal : ∀ c ∈ colormap, c.IsByte) :
    ∃ (hk : nearest_index p colormap < colormap.length),
      (∀ (j : Nat) (hj : j < colormap.length),
        color_dist p colormap[nearest_index p colormap] ≤ color_dist p colormap[j]) ∧
      (∀ (j : Nat) (hj : j < colormap.length), j < nearest_index p colormap →
        color_dist p colormap[nearest_index p colormap] < color_dist p colormap[j]) := by
  have hpos : 0 < colormap.length := List.length_pos.mpr hne
  rcases nearest_scan_spec p colormap 0 INT32_MAX 0 with ⟨_, hall⟩ | ⟨j, hj, hk, _, hmin, hfirst⟩
  · exfalso
    have h0 := hall 0 hpos
    have hle := color_dist_le p colormap[0] hp (hpal _ (List.getElem_mem hpos))
    unfold INT32_MAX at h0
    omega
  · have hidx : nearest_index p colormap = j := by
      unfold nearest_index
      rw [hk]
      omega
    refine ⟨by rw [hidx]; exact hj, ?_, ?_⟩
    · intro i hi
      simp only [hidx]
      exact hmin i hi
    · intro i hi hlt
      simp only [hidx] at hlt ⊢
      exact hfirst i hi hlt

/-- C1: for a well-formed frame and a non-empty colour map of at most 256 byte
colours, `create_color_index_buffer` returns one index per pixel; the index `k`
stored for pixel `i` is below the palette size, minimises the squared RGB
distance to the pixel over all palette indices, is the lowest index attaining
that minimum, and the selected distance is at most `3 * 255 ^ 2`. -/
theorem create_color_index_buffer_nearest (frame : Image) (colormap : List Color)
    (hf : frame.WellFormed) (hne : colormap ≠ []) (hlen : colormap.length ≤ 256)
    (hpal : ∀ c ∈ colormap, c.IsByte) :
    (create_color_index_buffer frame colormap).length = frame.width * frame.height ∧
    ∀ (i : Nat), i < frame.width * frame.height →
      ∃ (k : Nat) (hk : k < colormap.length),
        (create_color_index_buffer frame colormap)[i]? = some k ∧
        (∀ (j : Nat) (hj : j < colormap.length),
          color_dist (pixel_color frame i) colormap[k] ≤
            color_dist (pixel_color frame i) colormap[j]) ∧
        (∀ (j : Nat) (hj : j < colormap.length),
          color_dist (pixel_color frame i) colormap[j] =
            color_dist (pixel_color frame i) colormap[k] → k ≤ j) ∧
        color_dist (pixel_color frame i) colormap[k] ≤ 3 * 255 ^ 2 := by
  refine ⟨by simp [create_color_index_buffer], ?_⟩
  intro i hi
  obtain ⟨hk, hmin, hfirst⟩ :=
    nearest_index_spec (pixel_color frame i) colormap (pixel_color_isByte frame hf i) hne hpal
  refine ⟨nearest_index (pixel_color frame i) colormap, hk, ?_, hmin, ?_, ?_⟩
  · have hmod : nearest_index (pixel_color frame i) colormap % 256 =
        nearest_index (pixel_color frame i) colormap := Nat.mod_eq_of_lt (by omega)
    simp [create_color_index_buffer, hi, hmod]
  · intro j hj heq
    by_contra hlt
    have := hfirst j hj (not_le.mp hlt)
    omega
  · exact color_dist_le _ _ (pixel_color_isByte frame hf i) (hpal _ (List.getElem_mem hk))

/-- Witness for C1: the 4x1 frame of black, red, green, blue against the
palette black, blue, red, green. -/
theorem create_color_index_buffer_nearest_witness :
    frame_four.WellFormed ∧ palette_four ≠ [] ∧ palette_four.length ≤ 256 ∧
    (∀ c ∈ palette_four, c.IsByte) ∧
    ((create_color_index_buffer frame_four palette_four).length =
      frame_four.width * frame_four.height ∧
    ∀ (i : Nat), i < frame_four.width * frame_four.height →
      ∃ (k : Nat) (hk : k < palette_four.length),
        (create_color_index_buffer frame_four palette_four)[i]? = some k ∧
        (∀ (j : Nat) (hj : j < palette_four.length),
          color_dist (pixel_color frame_four i) palette_four[k] ≤
            color_dist (pixel_color frame_four i) palette_four[j]) ∧
        (∀ (j : Nat) (hj : j < palette_four.length),
          color_dist (pixel_color frame_four i) palette_four[j] =
            color_dist (pixel_color frame_four i) palette_four[k] → k ≤ j) ∧
        color_dist (pixel_color frame_four i) palette_four[k] ≤ 3 * 255 ^ 2) :=
  have hwf : frame_four.WellFormed := by simp [Image.WellFormed, frame_four]
  have hpal : ∀ c ∈ palette_four, c.IsByte := by simp [palette_four, Color.IsByte]
  ⟨hwf, by decide, by decide, hpal,
    create_color_index_buffer_nearest frame_four palette_four hwf (by decide) (by decide) hpal⟩

/-! ## Theorems: the splitting loop of `median_cut` -/

/-- The selection loop returns its initial `box_to_split` or an index it visited. -/
theorem select_box_scan_range (rest : List ColorBox) :
    ∀ (i : Nat) (max_range box_to_split : Int),
      select_box_scan rest i max_range box_to_split = box_to_split ∨
      ((i : Int) ≤ select_box_scan rest i max_range box_to_split ∧
        select_box_scan rest i max_range box_to_split < (i : Int) + rest.length) := by
  induction rest with
  | nil => intro i mr b; left; rfl
  | cons box rest ih =>
      intro i mr b
      simp only [select_box_scan]
      split
      · rcases ih (i + 1) (box_range box) (i : Int) with h | ⟨h1, h2⟩
        · right
          rw [h]
          simp only [List.length_cons]
          omega
        · right
          simp only [List.length_cons]
          push_cast at h1 h2 ⊢
          omega
      · rcases ih (i + 1) mr b with h | ⟨h1, h2⟩
        · left; exact h
        · right
          simp only [List.length_cons]
          push_cast at h1 h2 ⊢
          omega

/-- The value of `box_to_split` is `-1` or a valid box index. -/
theorem select_box_range (boxes : List ColorBox) :
    select_box boxes = -1 ∨ (0 ≤ select_box boxes ∧ select_box boxes < boxes.length) := by
  unfold select_box
  rcases select_box_scan_range boxes 0 (-1) (-1) with h | ⟨h1, h2⟩
  · left; exact h
  · right
    push_cast at h1 h2
    omega

/-- Replacing box `i` by `b1` and appending `b2` keeps any additive measure of
the boxes when `b1` and `b2` together measure what box `i` did. -/
theorem sum_map_set_append {M : Type} [AddCommMonoid M] (f : ColorBox → M) :
    ∀ (boxes : List ColorBox) (i : Nat) (hi : i < boxes.length) (b1 b2 : ColorBox),
      f b1 + f b2 = f boxes[i] →
      ((boxes.set i b1 ++ [b2]).map f).sum = (boxes.map f).sum := by
  intro boxes
  induction boxes with
  | nil => intro i hi; exact absurd hi (by simp)
  | cons b bs ih =>
      intro i hi b1 b2 h
      cases i with
      | zero =>
          simp only [List.getElem_cons_zero] at h
          simp only [List.set_cons_zero, List.cons_append, List.map_cons, List.map_append,
            List.map_nil, List.sum_cons, List.sum_append, List.sum_nil, add_zero]
          rw [← h]
          abel
      | succ i =>
          simp only [List.length_cons, Nat.add_lt_add_iff_right] at hi
          simp only [List.getElem_cons_succ] at h
          have := ih i hi b1 b2 h
          simp only [List.set_cons_succ, List.cons_append, List.map_cons, List.sum_cons]
          rw [this]

/-- The two halves made by `split_box` hold the colours of a box whose `count`
is the length of its slice, and their counts are `count / 2` and the rest. -/
theorem split_box_spec (qsort : (Color → Color → Int) → List Color → List Color)
    (hq : QsortPermutes qsort) (box : ColorBox) (hc : box.count = box.colors.length) :
    ((split_box qsort box).1.colors : Multiset Color) + ((split_box qsort box).2.colors : Multiset Color)
      = (box.colors : Multiset Color) ∧
    (split_box qsort box).1.count = (split_box qsort box).1.colors.length ∧
    (split_box qsort box).2.count = (split_box qsort box).2.colors.length ∧
    (split_box qsort box).1.count = box.count / 2 ∧
    (split_box qsort box).2.count = box.count - box.count / 2 := by
  have hperm := hq (channel_compare (sort_channel box)) box.colors
  have hlen : (qsort (channel_compare (sort_channel box)) box.colors).length = box.colors.length :=
    hperm.length_eq
  have hsorted : qsort (channel_compare (sort_channel box)) (box.colors.take box.count) ++
      box.colors.drop box.count = qsort (channel_compare (sort_channel box)) box.colors := by
    rw [hc, List.take_length, List.drop_length, List.append_nil]
  have htake : ((qsort (channel_compare (sort_channel box)) box.colors).drop (box.count / 2)).take
      (box.count - box.count / 2) =
      (qsort (channel_compare (sort_channel box)) box.colors).drop (box.count / 2) := by
    apply List.take_of_length_le
    rw [List.length_drop, hlen, hc]
  unfold split_box
  simp only [hsorted, htake]
  refine ⟨?_, ?_, ?_, trivial, trivial⟩
  · rw [Multiset.coe_add, List.take_append_drop]
    exact Multiset.coe_eq_coe.mpr hperm
  · rw [List.length_take, hlen, hc]
    omega
  · rw [List.length_drop, hlen, hc]

/-- One iteration of the splitting loop replaces a valid box by its two halves. -/
theorem median_cut_step_some (qsort : (Color → Color → Int) → List Color → List Color)
    (color_depth : Nat) (boxes boxes' : List ColorBox)
    (h : median_cut_step qsort color_depth boxes = some boxes') :
    boxes.length < color_depth ∧
    ∃ (i : Nat) (hi : i < boxes.length),
      select_box boxes = (i : Int) ∧
      boxes' = boxes.set i (split_box qsort boxes[i]).1 ++ [(split_box qsort boxes[i]).2] := by
  unfold median_cut_step at h
  by_cases hlt : boxes.length < color_depth
  · rw [if_pos hlt] at h
    by_cases hsel : select_box boxes = -1
    · simp [hsel] at h
    · simp only [hsel, if_false, Option.some.injEq] at h
      rcases select_box_range boxes with h1 | ⟨h0, h1⟩
      · exact absurd h1 hsel
      · have hi : (select_box boxes).toNat < boxes.length := by omega
        refine ⟨hlt, (select_box boxes).toNat, hi, by omega, ?_⟩
        rw [← h, List.getD_eq_getElem _ _ hi]
  · rw [if_neg hlt] at h
    exact absurd h (by simp)

/-- Every iteration of the splitting loop keeps the box count within
`color_depth`, the multiset of colours, the sum of the counts and `count = length`. -/
theorem median_cut_step_invariant (qsort : (Color → Color → Int) → List Color → List Color)
    (hq : QsortPermutes qsort) (color_depth : Nat) (boxes boxes' : List ColorBox)
    (h : median_cut_step qsort color_depth boxes = some boxes')
    (hwf : ∀ b ∈ boxes, b.count = b.colors.length) :
    boxes'.length = boxes.length + 1 ∧ boxes'.length ≤ color_depth ∧
    boxes_multiset boxes' = boxes_multiset boxes ∧
    (boxes'.map ColorBox.count).sum = (boxes.map ColorBox.count).sum ∧
    ∀ b ∈ boxes', b.count = b.colors.length := by
  obtain ⟨hlt, i, hi, _, rfl⟩ := median_cut_step_some qsort color_depth boxes boxes' h
  obtain ⟨hms, hc1, hc2, hn1, hn2⟩ :=
    split_box_spec qsort hq boxes[i] (hwf _ (List.getElem_mem hi))
  have hlen : (boxes.set i (split_box qsort boxes[i]).1 ++ [(split_box qsort boxes[i]).2]).length =
      boxes.length + 1 := by simp
  refine ⟨hlen, by omega, ?_, ?_, ?_⟩
  · unfold boxes_multiset
    exact sum_map_set_append (fun b => (b.colors : Multiset Color)) boxes i hi _ _ hms
  · apply sum_map_set_append ColorBox.count boxes i hi
    rw [hn1, hn2]
    have := Nat.div_le_self boxes[i].count 2
    omega
  · intro b hb
    rcases List.mem_append.mp hb with hb | hb
    · rcases List.mem_or_eq_of_mem_set hb with hb | hb
      · exact hwf b hb
      · rw [hb]; exact hc1
    · rw [List.mem_singleton.mp hb]; exact hc2

/-- The invariant holds for the boxes after any number of iterations. -/
theorem median_cut_loop_invariant (qsort : (Color → Color → Int) → List Color → List Color)
    (hq : QsortPermutes qsort) (color_depth : Nat) (n : Nat) :
    ∀ (boxes : List ColorBox), boxes.length ≤ color_depth →
      (∀ b ∈ boxes, b.count = b.colors.length) →
      (median_cut_loop qsort color_depth n boxes).length ≤ color_depth ∧
      boxes_multiset (median_cut_loop qsort color_depth n boxes) = boxes_multiset boxes ∧
      ((median_cut_loop qsort color_depth n boxes).map ColorBox.count).sum =
        (boxes.map ColorBox.count).sum ∧
      ∀ b ∈ median_cut_loop qsort color_depth n boxes, b.count = b.colors.length := by
  induction n with
  | zero => intro boxes hlen hwf; exact ⟨hlen, rfl, rfl, hwf⟩
  | succ n ih =>
      intro boxes hlen hwf
      unfold median_cut_loop
      cases hstep : median_cut_step qsort color_depth boxes with
      | none => exact ⟨hlen, rfl, rfl, hwf⟩
      | some boxes' =>
          obtain ⟨_, hle, hms, hsum, hwf'⟩ :=
            median_cut_step_invariant qsort hq color_depth boxes boxes' hstep hwf
          obtain ⟨h1, h2, h3, h4⟩ := ih boxes' hle hwf'
          exact ⟨h1, h2.trans hms, h3.trans hsum, h4⟩

/-- The splitting loop has ended once the fuel covers `color_depth - box_count`. -/
theorem median_cut_loop_terminates (qsort : (Color → Color → Int) → List Color → List Color)
    (color_depth : Nat) (fuel : Nat) :
    ∀ (boxes : List ColorBox), color_depth ≤ boxes.length + fuel →
      median_cut_step qsort color_depth (median_cut_loop qsort color_depth fuel boxes) = none := by
  induction fuel with
  | zero =>
      intro boxes h
      unfold median_cut_loop median_cut_step
      rw [if_neg (by omega)]
  | succ fuel ih =>
      intro boxes h
      unfold median_cut_loop
      cases hstep : median_cut_step qsort color_depth boxes with
      | none => exact hstep
      | some boxes' =>
          obtain ⟨hlt, i, hi, _, rfl⟩ := median_cut_step_some qsort color_depth boxes boxes' hstep
          apply ih
          simp only [List.length_append, List.length_set, List.length_singleton]
          omega

theorem boxes_multiset_initial (frame : Image) :
    boxes_multiset [initial_box frame] = (all_colors frame : Multiset Color) := by
  simp [boxes_multiset, initial_box]

/-- For every frame, every `K ≥ 1` and any `qsort`
that rearranges its input, after every number `n` of iterations of the
splitting loop of `median_cut` the number of boxes is at most `K`, the multiset
union of the colours held by the boxes is the multiset of the frame's pixels,
the box counts sum to `W * H`, and every `count` is the length of its slice;
the same holds at the exit of the loop, which is reached within `K` iterations. -/
theorem median_cut_boxes_invariant (qsort : (Color → Color → Int) → List Color → List Color)
    (hq : QsortPermutes qsort) (frame : Image) (K : Nat) (hK : 1 ≤ K) :
    (∀ (n : Nat),
      (median_cut_loop qsort K n [initial_box frame]).length ≤ K ∧
      boxes_multiset (median_cut_loop qsort K n [initial_box frame]) =
        (all_colors frame : Multiset Color) ∧
      ((median_cut_loop qsort K n [initial_box frame]).map ColorBox.count).sum =
        frame.width * frame.height ∧
      ∀ b ∈ median_cut_loop qsort K n [initial_box frame], b.count = b.colors.length) ∧
    median_cut_step qsort K (median_cut_boxes qsort frame K) = none ∧
    (median_cut_boxes qsort frame K).length ≤ K ∧
    boxes_multiset (median_cut_boxes qsort frame K) = (all_colors frame : Multiset Color) ∧
    ((median_cut_boxes qsort frame K).map ColorBox.count).sum = frame.width * frame.height := by
  have hwf : ∀ b ∈ [initial_box frame], b.count = b.colors.length := by
    intro b hb
    rw [List.mem_singleton.mp hb]
    simp [initial_box, all_colors]
  have hsum : ([initial_box frame].map ColorBox.count).sum = frame.width * frame.height := by
    simp [initial_box]
  have hinv : ∀ (n : Nat),
      (median_cut_loop qsort K n [initial_box frame]).length ≤ K ∧
      boxes_multiset (median_cut_loop qsort K n [initial_box frame]) =
        (all_colors frame : Multiset Color) ∧
      ((median_cut_loop qsort K n [initial_box frame]).map ColorBox.count).sum =
        frame.width * frame.height ∧
      ∀ b ∈ median_cut_loop qsort K n [initial_box frame], b.count = b.colors.length := by
    intro n
    obtain ⟨h1, h2, h3, h4⟩ :=
      median_cut_loop_invariant qsort hq K n [initial_box frame] (by simpa using hK) hwf
    exact ⟨h1, h2.trans (boxes_multiset_initial frame), h3.trans hsum, h4⟩
  refine ⟨hinv, ?_, (hinv K).1, (hinv K).2.1, (hinv K).2.2.1⟩
  exact median_cut_loop_terminates qsort K K [initial_box frame] (by simp)

theorem qsort_model_permutes : QsortPermutes qsort_model := by
  intro cmp l
  exact List.perm_insertionSort _ l

/-- C2: median-cut invariant.  For every frame, every `K ≥ 1` and any `qsort`
that rearranges its input, after every number `n` of iterations of the
splitting loop of `median_cut` the number of boxes is at most `K`, the multiset
union of the colours held by the boxes is the multiset of the frame's pixels
(duplicates retained), the box counts sum to `W * H`, and every `count` is the
length of its slice; the loop is left within `K` iterations and the same holds
for the boxes at its exit. -/
theorem median_cut_partition (qsort : (Color → Color → Int) → List Color → List Color)
    (hq : QsortPermutes qsort) (frame : Image) (K : Nat) (hK : 1 ≤ K) :
    (∀ (n : Nat),
      (median_cut_loop qsort K n [initial_box frame]).length ≤ K ∧
      boxes_multiset (median_cut_loop qsort K n [initial_box frame]) =
        (all_colors frame : Multiset Color) ∧
      ((median_cut_loop qsort K n [initial_box frame]).map ColorBox.count).sum =
        frame.width * frame.height ∧
      ∀ b ∈ median_cut_loop qsort K n [initial_box frame], b.count = b.colors.length) ∧
    median_cut_step qsort K (median_cut_boxes qsort frame K) = none ∧
    (median_cut_boxes qsort frame K).length ≤ K ∧
    boxes_multiset (median_cut_boxes qsort frame K) = (all_colors frame : Multiset Color) ∧
    ((median_cut_boxes qsort frame K).map ColorBox.count).sum = frame.width * frame.height :=
  median_cut_boxes_invariant qsort hq frame K hK

/-- Witness for C2: the 4x1 frame with `K = 4` and the insertion-sort `qsort`. -/
theorem median_cut_partition_witness :
    QsortPermutes qsort_model ∧ 1 ≤ 4 ∧
    ((∀ (n : Nat),
      (median_cut_loop qsort_model 4 n [initial_box frame_four]).length ≤ 4 ∧
      boxes_multiset (median_cut_loop qsort_model 4 n [initial_box frame_four]) =
        (all_colors frame_four : Multiset Color) ∧
      ((median_cut_loop qsort_model 4 n [initial_box frame_four]).map ColorBox.count).sum =
        frame_four.width * frame_four.height ∧
      ∀ b ∈ median_cut_loop qsort_model 4 n [initial_box frame_four],
        b.count = b.colors.length) ∧
    median_cut_step qsort_model 4 (median_cut_boxes qsort_model frame_four 4) = none ∧
    (median_cut_boxes qsort_model frame_four 4).length ≤ 4 ∧
    boxes_multiset (median_cut_boxes qsort_model frame_four 4) =
      (all_colors frame_four : Multiset Color) ∧
    ((median_cut_boxes qsort_model frame_four 4).map ColorBox.count).sum =
      frame_four.width * frame_four.height) :=
  ⟨qsort_model_permutes, by decide,
    median_cut_partition qsort_model qsort_model_permutes frame_four 4 (by decide)⟩

/-! ## Theorems: boxes of zero count -/

/-- After a colour has been scanned every maximum is at least the minimum. -/
theorem find_color_range_foldl_ordered (cs : List Color) :
    ∀ (acc : ColorRange), acc.r_min ≤ acc.r_max → acc.g_min ≤ acc.g_max → acc.b_min ≤ acc.b_max →
      (cs.foldl find_color_range_step acc).r_min ≤ (cs.foldl find_color_range_step acc).r_max ∧
      (cs.foldl find_color_range_step acc).g_min ≤ (cs.foldl find_color_range_step acc).g_max ∧
      (cs.foldl find_color_range_step acc).b_min ≤ (cs.foldl find_color_range_step acc).b_max := by
  induction cs with
  | nil => intro acc h1 h2 h3; exact ⟨h1, h2, h3⟩
  | cons c cs ih =>
      intro acc h1 h2 h3
      simp only [List.foldl_cons]
      apply ih
      · simp only [find_color_range_step]; split_ifs <;> omega
      · simp only [find_color_range_step]; split_ifs <;> omega
      · simp only [find_color_range_step]; split_ifs <;> omega

/-- A box that holds at least one colour has a non-negative `range`. -/
theorem box_range_nonneg (box : ColorBox) (hc : box.count = box.colors.length)
    (hpos : 1 ≤ box.count) : 0 ≤ box_range box := by
  have hne : box.colors.take box.count ≠ [] := by
    intro h
    have hl := congrArg List.length h
    rw [List.length_take, List.length_nil, hc, Nat.min_self] at hl
    omega
  obtain ⟨c, cs, hcs⟩ := List.exists_cons_of_ne_nil hne
  have h := find_color_range_foldl_ordered cs
    (find_color_range_step
      { r_min := 255, r_max := 0, g_min := 255, g_max := 0, b_min := 255, b_max := 0 } c)
    (by simp only [find_color_range_step]; split_ifs <;> omega)
    (by simp only [find_color_range_step]; split_ifs <;> omega)
    (by simp only [find_color_range_step]; split_ifs <;> omega)
  have hfold : find_color_range box = cs.foldl find_color_range_step
      (find_color_range_step
        { r_min := 255, r_max := 0, g_min := 255, g_max := 0, b_min := 255, b_max := 0 } c) := by
    unfold find_color_range
    rw [hcs, List.foldl_cons]
  unfold box_range
  rw [hfold]
  obtain ⟨h1, h2, h3⟩ := h
  simp only []
  split_ifs <;> omega

/-- Once `box_to_split` is an index it stays one. -/
theorem select_box_scan_nonneg (rest : List ColorBox) :
    ∀ (i : Nat) (max_range box_to_split : Int), 0 ≤ box_to_split →
      0 ≤ select_box_scan rest i max_range box_to_split := by
  induction rest with
  | nil => intro i mr b hb; exact hb
  | cons box rest ih =>
      intro i mr b hb
      simp only [select_box_scan]
      split
      · exact ih _ _ _ (by omega)
      · exact ih _ _ _ hb

/-- A box of non-negative range makes the selection loop, started at `-1`, pick a box. -/
theorem select_box_scan_found (rest : List ColorBox) :
    ∀ (i : Nat) (box_to_split : Int), (∃ b ∈ rest, 0 ≤ box_range b) →
      0 ≤ select_box_scan rest i (-1) box_to_split := by
  induction rest with
  | nil => intro i b h; obtain ⟨_, hb, _⟩ := h; exact absurd hb (by simp)
  | cons box rest ih =>
      intro i b h
      simp only [select_box_scan]
      split
      · exact select_box_scan_nonneg rest _ _ _ (by omega)
      · rename_i hnot
        apply ih
        obtain ⟨b', hb', hr⟩ := h
        rcases List.mem_cons.mp hb' with rfl | hb'
        · omega
        · exact ⟨b', hb', hr⟩

/-- Boxes whose counts sum to at least one always offer a box to split, also
when every box has zero range: `box_to_split` is not `-1`. -/
theorem select_box_ne_neg_one (boxes : List ColorBox)
    (hwf : ∀ b ∈ boxes, b.count = b.colors.length)
    (hsum : 1 ≤ (boxes.map ColorBox.count).sum) : select_box boxes ≠ -1 := by
  have hex : ∃ b ∈ boxes, 1 ≤ b.count := by
    by_contra hno
    push_neg at hno
    have hz : (boxes.map ColorBox.count).sum = 0 := by
      apply List.sum_eq_zero
      intro n hn
      obtain ⟨b, hb, rfl⟩ := List.mem_map.mp hn
      have := hno b hb
      omega
    omega
  obtain ⟨b, hb, hpos⟩ := hex
  have := select_box_scan_found boxes 0 (-1) ⟨b, hb, box_range_nonneg b (hwf b hb) hpos⟩
  unfold select_box
  omega

/-- With at least one pixel in the boxes the loop is left only through its
condition: the `break` is never taken, so the boxes have reached `color_depth`. -/
theorem median_cut_step_none_length (qsort : (Color → Color → Int) → List Color → List Color)
    (color_depth : Nat) (boxes : List ColorBox)
    (hwf : ∀ b ∈ boxes, b.count = b.colors.length)
    (hsum : 1 ≤ (boxes.map ColorBox.count).sum)
    (h : median_cut_step qsort color_depth boxes = none) : color_depth ≤ boxes.length := by
  by_contra hlt
  unfold median_cut_step at h
  rw [if_pos (by omega)] at h
  simp [select_box_ne_neg_one boxes hwf hsum] at h

/-- If every box holds a colour there are at most as many boxes as colours. -/
theorem length_le_sum_count (boxes : List ColorBox) (h : ∀ b ∈ boxes, 1 ≤ b.count) :
    boxes.length ≤ (boxes.map ColorBox.count).sum := by
  induction boxes with
  | nil => simp
  | cons b bs ih =>
      have h1 := h b (List.mem_cons_self b bs)
      have h2 := ih (fun b' hb' => h b' (List.mem_cons_of_mem b hb'))
      simp only [List.length_cons, List.map_cons, List.sum_cons]
      omega

/-- The averages of a collection that has a box of zero count cannot be computed. -/
theorem mapM_compute_average_none (boxes : List ColorBox)
    (h : ∃ b ∈ boxes, b.count = 0) : boxes.mapM compute_average = none := by
  induction boxes with
  | nil => obtain ⟨_, hb, _⟩ := h; exact absurd hb (by simp)
  | cons b bs ih =>
      obtain ⟨b', hb', hz⟩ := h
      rw [List.mapM_cons]
      rcases List.mem_cons.mp hb' with rfl | hb'
      · simp [compute_average, hz]
      · rw [ih ⟨b', hb', hz⟩]
        cases compute_average b <;> rfl

/-- For a frame of at least one pixel the splitting loop always ends with
exactly `K` boxes; when the frame has fewer than `K` pixels one of them has
count zero and `median_cut` divides by zero. -/
theorem median_cut_fills_color_depth (qsort : (Color → Color → Int) → List Color → List Color)
    (hq : QsortPermutes qsort) (frame : Image) (K : Nat) (hK : 1 ≤ K)
    (hpix : 1 ≤ frame.width * frame.height) :
    (median_cut_boxes qsort frame K).length = K ∧
    (frame.width * frame.height < K →
      (∃ b ∈ median_cut_boxes qsort frame K, b.count = 0) ∧ median_cut qsort frame K = none) := by
  obtain ⟨hinv, hexit, hlen, _, hsum⟩ := median_cut_boxes_invariant qsort hq frame K hK
  have hwf := (hinv K).2.2.2
  have hge := median_cut_step_none_length qsort K (median_cut_boxes qsort frame K) hwf
    (by rw [hsum]; exact hpix) hexit
  refine ⟨le_antisymm hlen hge, ?_⟩
  intro hlt
  have hex : ∃ b ∈ median_cut_boxes qsort frame K, b.count = 0 := by
    by_contra hno
    push_neg at hno
    have := length_le_sum_count (median_cut_boxes qsort frame K)
      (fun b hb => Nat.one_le_iff_ne_zero.mpr (hno b hb))
    omega
  exact ⟨hex, mapM_compute_average_none _ hex⟩

/-- C3 (the code at the failing input): for the 1x1 frame of one grey pixel
and `K = 256`, whatever rearranging `qsort` is used, the splitting loop ends
with 256 boxes one of which has count 0, and `compute_average` divides by that
zero count, so `median_cut` returns no palette. -/
theorem median_cut_pixel_zero_count (qsort : (Color → Color → Int) → List Color → List Color)
    (hq : QsortPermutes qsort) :
    (median_cut_boxes qsort frame_pixel 256).length = 256 ∧
    (∃ b ∈ median_cut_boxes qsort frame_pixel 256, b.count = 0 ∧ compute_average b = none) ∧
    median_cut qsort frame_pixel 256 = none := by
  obtain ⟨hlen, h⟩ := median_cut_fills_color_depth qsort hq frame_pixel 256 (by decide) (by decide)
  obtain ⟨⟨b, hb, hz⟩, hnone⟩ := h (by decide)
  exact ⟨hlen, ⟨b, hb, hz, by simp [compute_average, hz]⟩, hnone⟩

/-- Witness for C3's evaluation: the insertion-sort `qsort`. -/
theorem median_cut_pixel_zero_count_witness :
    QsortPermutes qsort_model ∧
    ((median_cut_boxes qsort_model frame_pixel 256).length = 256 ∧
    (∃ b ∈ median_cut_boxes qsort_model frame_pixel 256,
      b.count = 0 ∧ compute_average b = none) ∧
    median_cut qsort_model frame_pixel 256 = none) :=
  ⟨qsort_model_permutes, median_cut_pixel_zero_count qsort_model qsort_model_permutes⟩

/-- The first split of a one-pixel box: an empty box and the box of the pixel. -/
theorem median_cut_pixel_first_split :
    median_cut_boxes qsort_model frame_pixel 2 =
      [{ colors := [], count := 0 }, { colors := [⟨128, 128, 128⟩], count := 1 }] := by
  decide

set_option maxRecDepth 100000 in
/-- The only box of the solid grey frame has range zero. -/
theorem box_range_frame_gray : box_range (initial_box frame_gray) = 0 := by
  decide

/-- C4 (the code at the failing input): for the 8x8 frame of solid grey and
`K = 256`, whatever rearranging `qsort` is used, the only box has zero range in
all three channels and yet the loop splits it; the loop ends with 256 boxes,
not one, and `median_cut` returns no palette because a box of count 0 is averaged. -/
theorem median_cut_gray_no_early_stop (qsort : (Color → Color → Int) → List Color → List Color)
    (hq : QsortPermutes qsort) :
    box_range (initial_box frame_gray) = 0 ∧
    median_cut_step qsort 256 [initial_box frame_gray] ≠ none ∧
    (median_cut_boxes qsort frame_gray 256).length = 256 ∧
    median_cut qsort frame_gray 256 = none := by
  obtain ⟨hlen, h⟩ := median_cut_fills_color_depth qsort hq frame_gray 256 (by decide) (by decide)
  refine ⟨box_range_frame_gray, ?_, hlen, (h (by decide)).2⟩
  intro hstep
  have := median_cut_step_none_length qsort 256 [initial_box frame_gray]
    (by intro b hb; rw [List.mem_singleton.mp hb]; simp [initial_box, all_colors])
    (by simp [initial_box, frame_gray]) hstep
  simp at this

/-- Witness for C4's evaluation: the insertion-sort `qsort`. -/
theorem median_cut_gray_no_early_stop_witness :
    QsortPermutes qsort_model ∧
    (box_range (initial_box frame_gray) = 0 ∧
    median_cut_step qsort_model 256 [initial_box frame_gray] ≠ none ∧
    (median_cut_boxes qsort_model frame_gray 256).length = 256 ∧
    median_cut qsort_model frame_gray 256 = none) :=
  ⟨qsort_model_permutes, median_cut_gray_no_early_stop qsort_model qsort_model_permutes⟩

/-! ## Theorems: the motion warp -/

/-- The clamp leaves a coordinate that is already inside the image alone. -/
theorem clamp_coord_id (s w : Int) (h0 : 0 ≤ s) (hw : s < w) : clamp_coord s w = s := by
  unfold clamp_coord
  split_ifs <;> omega

theorem wrap32_id (n : Int) (h0 : -2147483648 ≤ n) (h1 : n ≤ 2147483647) : wrap32 n = n := by
  unfold wrap32
  omega

/-- Truncation toward zero of a number strictly between -1 and 1 is 0. -/
theorem trunc_eq_zero (q : ℚ) (h0 : -1 < q) (h1 : q < 1) : trunc q = 0 := by
  unfold trunc
  split_ifs with h
  · exact Int.floor_eq_zero_iff.mpr ⟨h, h1⟩
  · exact Int.ceil_eq_zero_iff.mpr ⟨h0, le_of_lt (not_le.mp h)⟩

/-- Reading `n` chunks of `k` consecutive elements gives the first `n * k` elements. -/
theorem flatten_chunks {α : Type} (l : List α) (k : Nat) (n : Nat) :
    ((List.range n).map fun i => (l.drop (i * k)).take k).flatten = l.take (n * k) := by
  induction n with
  | zero => simp
  | succ n ih =>
      rw [List.range_succ, List.map_append, List.flatten_append, ih]
      simp only [List.map_cons, List.map_nil, List.flatten_cons, List.flatten_nil,
        List.append_nil]
      rw [Nat.succ_mul, List.take_add]

/-- The source offset of a coordinate inside the image, as a natural number. -/
theorem src_offset_cast (src : Image) (x y : Nat) :
    (src_offset src ((x : Int), (y : Int))).toNat = (y * src.width + x) * src.channels := by
  unfold src_offset
  have h : ((y : Int) * (src.width : Int) + (x : Int)) * (src.channels : Int) =
      (((y * src.width + x) * src.channels : Nat) : Int) := by push_cast; ring
  simp only [h, Int.toNat_natCast]

/-- A warp that pulls every pixel from its own coordinate copies the source. -/
theorem warp_data_identity (env : FloatEnv) (src : Image) (regions : List MotionRegion)
    (num_regions : Nat) (phase : ℚ)
    (hlen : src.data.length = src.width * src.height * src.channels)
    (hcoord : ∀ x y : Nat, x < src.width → y < src.height →
      warp_coord env src regions num_regions phase x y = ((x : Int), (y : Int))) :
    warp_data env src regions num_regions phase = src.data := by
  unfold warp_data
  have hrow : ∀ y ∈ List.range src.height,
      ((List.range src.width).map fun x =>
        warp_pixel env src regions num_regions phase y x).flatten =
      (src.data.drop (y * (src.width * src.channels))).take (src.width * src.channels) := by
    intro y hy
    have hy' : y < src.height := List.mem_range.mp hy
    have hpix : ∀ x ∈ List.range src.width,
        warp_pixel env src regions num_regions phase y x =
        ((src.data.drop (y * (src.width * src.channels))).drop (x * src.channels)).take
          src.channels := by
      intro x hx
      unfold warp_pixel
      rw [hcoord x y (List.mem_range.mp hx) hy', src_offset_cast, List.drop_drop]
      congr 2
      ring
    rw [List.map_congr_left hpix]
    exact flatten_chunks _ _ _
  rw [List.map_congr_left hrow, flatten_chunks]
  apply List.take_of_length_le
  rw [hlen]
  apply le_of_eq
  ring


theorem FloatEnv.Sound.rnd32_zero {env : FloatEnv} (h : env.Sound) : env.rnd32 0 = 0 := by
  have := h.rnd32_dyadic 0 (by norm_num) (by norm_num)
  simpa using this

theorem FloatEnv.Sound.rnd32_half {env : FloatEnv} (h : env.Sound) :
    env.rnd32 (1 / 2) = 1 / 2 := by
  have := h.rnd32_dyadic 524288 (by norm_num) (by norm_num)
  norm_num at this
  simpa using this

theorem FloatEnv.Sound.rnd32_one {env : FloatEnv} (h : env.Sound) : env.rnd32 1 = 1 := by
  have := h.rnd32_dyadic 1048576 (by norm_num) (by norm_num)
  norm_num at this
  exact this

/-- The radius of a region of radius at least 1 is a non-zero `float`. -/
theorem FloatEnv.Sound.rnd32_radius_pos {env : FloatEnv} (h : env.Sound) (radius : Int)
    (hr : 1 ≤ radius) : 0 < env.rnd32 (radius : ℚ) := by
  have h1 : (1 : ℚ) ≤ (radius : ℚ) := by exact_mod_cast hr
  have := h.rnd32_mono 1 (radius : ℚ) h1
  rw [h.rnd32_one] at this
  linarith

/-- A zero total displacement rounds to the offset 0: `(int)(0.0f + 0.5f) = 0`. -/
theorem round_offset_zero (env : FloatEnv) (h : env.Sound) : round_offset env (some 0) = 0 := by
  have ht : trunc (1 / 2 : ℚ) = 0 := trunc_eq_zero _ (by norm_num) (by norm_num)
  unfold round_offset FloatEnv.add FloatEnv.to_int
  simp only [zero_add, h.rnd32_half, ht]
  simp [INT_MIN, INT_MAX]

/-- With zero offsets a pixel inside the image pulls from its own coordinate. -/
theorem source_coord_zero (src : Image) (hfit : src.FitsInt) (x y : Nat)
    (hx : x < src.width) (hy : y < src.height) :
    source_coord src x y 0 0 = ((x : Int), (y : Int)) := by
  obtain ⟨hw, hh⟩ := hfit
  unfold source_coord
  rw [add_zero, add_zero, wrap32_id _ (by omega) (by omega), wrap32_id _ (by omega) (by omega),
    clamp_coord_id _ _ (by omega) (by omega), clamp_coord_id _ _ (by omega) (by omega)]

/-- A frame whose total displacement is zero at every pixel copies the source. -/
theorem warp_data_of_total_zero (env : FloatEnv) (henv : env.Sound) (src : Image)
    (hlen : src.data.length = src.width * src.height * src.channels) (hfit : src.FitsInt)
    (regions : List MotionRegion) (num_regions : Nat) (phase : ℚ)
    (htotal : ∀ x y : Nat,
      total_displacement env regions num_regions phase (x : Int) (y : Int) = (some 0, some 0)) :
    warp_data env src regions num_regions phase = src.data := by
  apply warp_data_identity env src regions num_regions phase hlen
  intro x y hx hy
  unfold warp_coord
  simp only [htotal x y, round_offset_zero env henv]
  exact source_coord_zero src hfit x y hx hy

/-- The reference environment satisfies the assumed facts. -/
theorem ref_env_sound : ref_env.Sound where
  rnd32_mono := fun _ _ h => h
  rnd32_dyadic := fun _ _ _ => rfl
  rnd64_zero := rfl
  sinf_zero := by
    show ref_sinf 0 = 0
    norm_num [ref_sinf, sin_poly, M_PI]
  sqrtf_nonneg := by
    intro q _
    show 0 ≤ ref_sqrtf q
    unfold ref_sqrtf
    positivity
  sqrtf_pos := by
    intro q hq
    show 0 < ref_sqrtf q
    unfold ref_sqrtf
    have h1 : (1 : Int) ≤ ⌊q * 1099511627776⌋ := by
      apply Int.le_floor.mpr
      push_cast
      linarith
    have h2 : 0 < ⌊q * 1099511627776⌋.toNat := by omega
    have h3 : 0 < Nat.sqrt ⌊q * 1099511627776⌋.toNat := Nat.sqrt_pos.mpr h2
    have h4 : (0 : ℚ) < (Nat.sqrt ⌊q * 1099511627776⌋.toNat : ℚ) := by exact_mod_cast h3
    positivity
  powf_unit := by
    intro a p h0 h1 hp
    refine ⟨a ^ ⌊p⌋.toNat, ?_, pow_nonneg h0 _, pow_le_one₀ h0 h1⟩
    show ref_powf a p = some (a ^ ⌊p⌋.toNat)
    unfold ref_powf
    rw [if_neg]
    intro h
    linarith [h.2]

/-- C8: empty-regions identity.  For every source image whose sample array has
`W * H * C` entries and every frame count `N`, `amplify_motion` called with
`num_regions = 0` returns `N` frames, each with the source's width, height and
channel count and with a sample array equal to the source's. -/
theorem amplify_motion_no_regions (env : FloatEnv) (henv : env.Sound) (src : Image)
    (hlen : src.data.length = src.width * src.height * src.channels) (hfit : src.FitsInt)
    (regions : List MotionRegion) (N : Nat) :
    amplify_motion env src N regions 0 = List.replicate N src ∧
    (amplify_motion env src N regions 0).length = N ∧
    ∀ frame ∈ amplify_motion env src N regions 0,
      frame.width = src.width ∧ frame.height = src.height ∧
      frame.channels = src.channels ∧ frame.data = src.data := by
  have hframe : ∀ f : Nat, warp_frame env src N regions 0 f = src := by
    intro f
    unfold warp_frame
    rw [warp_data_of_total_zero env henv src hlen hfit regions 0 _ (by
      intro x y
      simp [total_displacement])]
  have heq : amplify_motion env src N regions 0 = List.replicate N src := by
    unfold amplify_motion
    apply List.eq_replicate_iff.mpr
    refine ⟨by simp, ?_⟩
    intro b hb
    obtain ⟨f, _, rfl⟩ := List.mem_map.mp hb
    exact hframe f
  refine ⟨heq, by rw [heq, List.length_replicate], ?_⟩
  intro frame hf
  rw [heq] at hf
  rw [List.eq_of_mem_replicate hf]
  exact ⟨rfl, rfl, rfl, rfl⟩

/-- Witness for C8: the 4x1 frame, 24 frames, the reference environment. -/
theorem amplify_motion_no_regions_witness :
    ref_env.Sound ∧
    frame_four.data.length = frame_four.width * frame_four.height * frame_four.channels ∧
    frame_four.FitsInt ∧
    (amplify_motion ref_env frame_four 24 [] 0 = List.replicate 24 frame_four ∧
    (amplify_motion ref_env frame_four 24 [] 0).length = 24 ∧
    ∀ frame ∈ amplify_motion ref_env frame_four 24 [] 0,
      frame.width = frame_four.width ∧ frame.height = frame_four.height ∧
      frame.channels = frame_four.channels ∧ frame.data = frame_four.data) :=
  ⟨ref_env_sound, by decide, by simp [Image.FitsInt, frame_four],
    amplify_motion_no_regions ref_env ref_env_sound frame_four (by decide)
      (by simp [Image.FitsInt, frame_four]) [] 24⟩

/-- For a region of radius at least 1 and positive falloff the displacement is
a finite number: zero outside the disk, and inside it the rounded product of an
influence in `[0, 1]` and the motion `sinf(phase * frequency)`. -/
theorem calculate_displacement_cases (env : FloatEnv) (henv : env.Sound) (x y : Int)
    (region : MotionRegion) (phase : ℚ) (hr : 1 ≤ region.radius) (hp : 0 < region.falloff) :
    calculate_displacement env x y region phase = some 0 ∨
    ∃ influence : ℚ, 0 ≤ influence ∧ influence ≤ 1 ∧
      calculate_displacement env x y region phase =
        some (env.rnd32 (influence * env.sinf (env.rnd32 (phase * region.frequency)))) := by
  have hR := henv.rnd32_radius_pos region.radius hr
  unfold calculate_displacement
  simp only []
  split_ifs with hgt
  · left; rfl
  · right
    have hsq : ∀ t : ℚ, 0 ≤ env.rnd32 (t * t) := by
      intro t
      have := henv.rnd32_mono 0 (t * t) (mul_self_nonneg t)
      rwa [henv.rnd32_zero] at this
    have harg : 0 ≤ env.rnd32
        (env.rnd32 (env.rnd32 ((x - region.x : Int) : ℚ) * env.rnd32 ((x - region.x : Int) : ℚ)) +
         env.rnd32 (env.rnd32 ((y - region.y : Int) : ℚ) * env.rnd32 ((y - region.y : Int) : ℚ))) := by
      have := henv.rnd32_mono 0 _ (add_nonneg (hsq (env.rnd32 ((x - region.x : Int) : ℚ)))
        (hsq (env.rnd32 ((y - region.y : Int) : ℚ))))
      rwa [henv.rnd32_zero] at this
    have hd0 := henv.sqrtf_nonneg _ harg
    have hd1 := not_lt.mp hgt
    have hratio0 : 0 ≤ env.rnd32 (env.sqrtf (env.rnd32
        (env.rnd32 (env.rnd32 ((x - region.x : Int) : ℚ) * env.rnd32 ((x - region.x : Int) : ℚ)) +
         env.rnd32 (env.rnd32 ((y - region.y : Int) : ℚ) * env.rnd32 ((y - region.y : Int) : ℚ)))) /
        env.rnd32 (region.radius : ℚ)) := by
      have := henv.rnd32_mono 0 _ (div_nonneg hd0 (le_of_lt hR))
      rwa [henv.rnd32_zero] at this
    have hratio1 : env.rnd32 (env.sqrtf (env.rnd32
        (env.rnd32 (env.rnd32 ((x - region.x : Int) : ℚ) * env.rnd32 ((x - region.x : Int) : ℚ)) +
         env.rnd32 (env.rnd32 ((y - region.y : Int) : ℚ) * env.rnd32 ((y - region.y : Int) : ℚ)))) /
        env.rnd32 (region.radius : ℚ)) ≤ 1 := by
      have := henv.rnd32_mono _ 1 ((div_le_one hR).mpr hd1)
      rwa [henv.rnd32_one] at this
    obtain ⟨v, hv, hv0, hv1⟩ := henv.powf_unit _ region.falloff hratio0 hratio1 hp
    refine ⟨env.rnd32 (1 - v), ?_, ?_, ?_⟩
    · have := henv.rnd32_mono 0 (1 - v) (by linarith)
      rwa [henv.rnd32_zero] at this
    · have := henv.rnd32_mono (1 - v) 1 (by linarith)
      rwa [henv.rnd32_one] at this
    · simp only [FloatEnv.div, if_neg (ne_of_gt hR), FloatEnv.pow, hv, FloatEnv.sub,
        FloatEnv.mul]

/-- At phase 0 the displacement of a region of radius at least 1 is zero. -/
theorem calculate_displacement_phase_zero (env : FloatEnv) (henv : env.Sound) (x y : Int)
    (region : MotionRegion) (hr : 1 ≤ region.radius) (hp : 0 < region.falloff) :
    calculate_displacement env x y region 0 = some 0 := by
  rcases calculate_displacement_cases env henv x y region 0 hr hp with h | ⟨v, _, _, h⟩
  · exact h
  · rw [h, zero_mul, henv.rnd32_zero, henv.sinf_zero, mul_zero, henv.rnd32_zero]

/-- A finite displacement that is zero, or is scaled by `dx = dy = 0`, adds
nothing to the totals. -/
theorem region_contribution_zero (env : FloatEnv) (henv : env.Sound) (x y : Int) (phase : ℚ)
    (region : MotionRegion) (v : ℚ)
    (hv : calculate_displacement env x y region phase = some v)
    (hz : v = 0 ∨ (region.dx = 0 ∧ region.dy = 0)) :
    region_contribution env x y phase region = (some 0, some 0) := by
  unfold region_contribution
  simp only [hv, FloatEnv.mul]
  rcases hz with rfl | ⟨h1, h2⟩
  · simp [henv.rnd32_zero]
  · simp [h1, h2, henv.rnd32_zero]

/-- Regions that add nothing leave the totals at zero. -/
theorem total_displacement_zero (env : FloatEnv) (henv : env.Sound)
    (regions : List MotionRegion) (num_regions : Nat) (phase : ℚ) (x y : Int)
    (h : ∀ r ∈ regions, region_contribution env x y phase r = (some 0, some 0)) :
    total_displacement env regions num_regions phase x y = (some 0, some 0) := by
  unfold total_displacement
  have hkeep : ∀ (l : List MotionRegion),
      (∀ r ∈ l, region_contribution env x y phase r = (some 0, some 0)) →
      l.foldl (accumulate_step env x y phase) (some 0, some 0) = (some 0, some 0) := by
    intro l
    induction l with
    | nil => intro _; rfl
    | cons r rs ih =>
        intro hl
        have hstep : accumulate_step env x y phase (some 0, some 0) r = (some 0, some 0) := by
          unfold accumulate_step
          rw [hl r (List.mem_cons_self r rs)]
          simp [FloatEnv.add, henv.rnd32_zero]
        rw [List.foldl_cons, hstep]
        exact ih (fun r' hr' => hl r' (List.mem_cons_of_mem r hr'))
  exact hkeep _ (fun r hr => h r (List.mem_of_mem_take hr))

/-- The phase of frame 0 is zero. -/
theorem frame_phase_zero (env : FloatEnv) (henv : env.Sound) (frame_count : Nat) :
    frame_phase env 0 frame_count = 0 := by
  unfold frame_phase
  simp [henv.rnd64_zero, henv.rnd32_zero]

/-- At phase 0 every pixel inside the image pulls from its own coordinate. -/
theorem warp_coord_phase_zero (env : FloatEnv) (henv : env.Sound) (src : Image)
    (hfit : src.FitsInt) (regions : List MotionRegion) (num_regions : Nat)
    (hreg : ∀ r ∈ regions, 1 ≤ r.radius ∧ 0 < r.falloff) (x y : Nat)
    (hx : x < src.width) (hy : y < src.height) :
    warp_coord env src regions num_regions 0 x y = ((x : Int), (y : Int)) := by
  have ht : total_displacement env regions num_regions 0 (x : Int) (y : Int) =
      (some 0, some 0) := by
    apply total_displacement_zero env henv
    intro r hr
    exact region_contribution_zero env henv _ _ 0 r 0
      (calculate_displacement_phase_zero env henv _ _ r (hreg r hr).1 (hreg r hr).2) (Or.inl rfl)
  unfold warp_coord
  simp only [ht, round_offset_zero env henv]
  exact source_coord_zero src hfit x y hx hy

/-- Frame 0 is the source when every region has radius at least 1 and positive falloff. -/
theorem warp_frame_zero_eq (env : FloatEnv) (henv : env.Sound) (src : Image)
    (hlen : src.data.length = src.width * src.height * src.channels) (hfit : src.FitsInt)
    (regions : List MotionRegion) (num_regions : Nat)
    (hreg : ∀ r ∈ regions, 1 ≤ r.radius ∧ 0 < r.falloff) (N : Nat) :
    warp_frame env src N regions num_regions 0 = src := by
  unfold warp_frame
  rw [frame_phase_zero env henv, warp_data_identity env src regions num_regions 0 hlen]
  intro x y hx hy
  exact warp_coord_phase_zero env henv src hfit regions num_regions hreg x y hx hy

/-- C10: phase-zero identity.  For every source image whose sample array has
`W * H * C` entries, every list of regions with radius at least 1 and positive
falloff (any dx, dy and frequency) and every `N ≥ 1`, frame 0 produced by
`amplify_motion` (phase 0, where `sinf` is 0) equals the source image; hence
`median_cut` of frame 0 is `median_cut` of the source. -/
theorem amplify_motion_frame_zero (env : FloatEnv) (henv : env.Sound) (src : Image)
    (hlen : src.data.length = src.width * src.height * src.channels) (hfit : src.FitsInt)
    (regions : List MotionRegion) (num_regions : Nat)
    (hreg : ∀ r ∈ regions, 1 ≤ r.radius ∧ 0 < r.falloff) (N : Nat) (hN : 1 ≤ N) :
    (amplify_motion env src N regions num_regions)[0]? = some src ∧
    warp_frame env src N regions num_regions 0 = src ∧
    ∀ (qsort : (Color → Color → Int) → List Color → List Color) (K : Nat),
      median_cut qsort (warp_frame env src N regions num_regions 0) K = median_cut qsort src K := by
  have hframe := warp_frame_zero_eq env henv src hlen hfit regions num_regions hreg N
  refine ⟨?_, hframe, fun qsort K => by rw [hframe]⟩
  unfold amplify_motion
  rw [List.getElem?_map, List.getElem?_range (by omega)]
  simp [hframe]

/-- Witness for C10: the 4x1 frame, one picked region, 24 frames, the
reference environment. -/
theorem amplify_motion_frame_zero_witness :
    ref_env.Sound ∧
    frame_four.data.length = frame_four.width * frame_four.height * frame_four.channels ∧
    frame_four.FitsInt ∧
    (∀ r ∈ [region_picked], 1 ≤ r.radius ∧ 0 < r.falloff) ∧ 1 ≤ 24 ∧
    ((amplify_motion ref_env frame_four 24 [region_picked] 1)[0]? = some frame_four ∧
    warp_frame ref_env frame_four 24 [region_picked] 1 0 = frame_four ∧
    ∀ (qsort : (Color → Color → Int) → List Color → List Color) (K : Nat),
      median_cut qsort (warp_frame ref_env frame_four 24 [region_picked] 1 0) K =
        median_cut qsort frame_four K) :=
  ⟨ref_env_sound, by decide, by simp [Image.FitsInt, frame_four],
    by simp [region_picked], by decide,
    amplify_motion_frame_zero ref_env ref_env_sound frame_four (by decide)
      (by simp [Image.FitsInt, frame_four]) [region_picked] 1 (by simp [region_picked]) 24
      (by decide)⟩

/-- Away from its centre a region of radius 0 has displacement zero. -/
theorem calculate_displacement_radius_zero (env : FloatEnv) (henv : env.Sound) (x y : Int)
    (region : MotionRegion) (phase : ℚ) (hr : region.radius = 0)
    (hxy : x ≠ region.x ∨ y ≠ region.y) :
    calculate_displacement env x y region phase = some 0 := by
  have hsq0 : ∀ t : ℚ, 0 ≤ env.rnd32 (t * t) := by
    intro t
    have := henv.rnd32_mono 0 (t * t) (mul_self_nonneg t)
    rwa [henv.rnd32_zero] at this
  have hneg1 : env.rnd32 (-1) = -1 := by
    have := henv.rnd32_dyadic (-1048576) (by norm_num) (by norm_num)
    norm_num at this
    exact this
  have hsq1 : ∀ k : Int, k ≠ 0 → 1 ≤ env.rnd32 (env.rnd32 (k : ℚ) * env.rnd32 (k : ℚ)) := by
    intro k hk
    have h1 : 1 ≤ env.rnd32 (k : ℚ) * env.rnd32 (k : ℚ) := by
      rcases lt_or_gt_of_ne hk with hlt | hgt
      · have hk1 : (k : ℚ) ≤ -1 := by exact_mod_cast (by omega : k ≤ -1)
        have := henv.rnd32_mono _ _ hk1
        rw [hneg1] at this
        nlinarith
      · have hk1 : (1 : ℚ) ≤ (k : ℚ) := by exact_mod_cast (by omega : 1 ≤ k)
        have := henv.rnd32_mono _ _ hk1
        rw [henv.rnd32_one] at this
        nlinarith
    have := henv.rnd32_mono _ _ h1
    rwa [henv.rnd32_one] at this
  have harg : 1 ≤ env.rnd32
      (env.rnd32 (env.rnd32 ((x - region.x : Int) : ℚ) * env.rnd32 ((x - region.x : Int) : ℚ)) +
       env.rnd32 (env.rnd32 ((y - region.y : Int) : ℚ) * env.rnd32 ((y - region.y : Int) : ℚ))) := by
    have hsum : 1 ≤
        env.rnd32 (env.rnd32 ((x - region.x : Int) : ℚ) * env.rnd32 ((x - region.x : Int) : ℚ)) +
        env.rnd32 (env.rnd32 ((y - region.y : Int) : ℚ) * env.rnd32 ((y - region.y : Int) : ℚ)) := by
      rcases hxy with hx | hy
      · have := hsq1 (x - region.x) (by omega)
        have := hsq0 (env.rnd32 ((y - region.y : Int) : ℚ))
        linarith
      · have := hsq1 (y - region.y) (by omega)
        have := hsq0 (env.rnd32 ((x - region.x : Int) : ℚ))
        linarith
    have := henv.rnd32_mono _ _ hsum
    rwa [henv.rnd32_one] at this
  have hpos := henv.sqrtf_pos _ harg
  unfold calculate_displacement
  simp only [hr, Int.cast_zero, henv.rnd32_zero]
  rw [if_pos hpos]

/-- C9 (amended): for every sound environment, every pixel and every phase, a
region with `dx = dy = 0`, radius at least 1, positive falloff and a frequency
whose `float` product with the phase is finite (at most `FLT_MAX` in magnitude,
so that `sinf` is called on a number) adds nothing to the totals, and a region
of radius 0 adds nothing at any pixel other than its own centre; a region list
made of regions with `dx = dy = 0`, radius at least 1, positive falloff and
such a frequency produces frames identical to the source. -/
theorem no_displacement_identity (env : FloatEnv) (henv : env.Sound) :
    (∀ (x y : Int) (phase : ℚ) (region : MotionRegion),
      region.dx = 0 → region.dy = 0 → 1 ≤ region.radius → 0 < region.falloff →
      |env.rnd32 (phase * region.frequency)| ≤ FLT_MAX →
      region_contribution env x y phase region = (some 0, some 0)) ∧
    (∀ (x y : Int) (phase : ℚ) (region : MotionRegion),
      region.radius = 0 → (x ≠ region.x ∨ y ≠ region.y) →
      region_contribution env x y phase region = (some 0, some 0)) ∧
    (∀ (src : Image) (regions : List MotionRegion) (num_regions N f : Nat),
      src.data.length = src.width * src.height * src.channels → src.FitsInt →
      (∀ r ∈ regions, r.dx = 0 ∧ r.dy = 0 ∧ 1 ≤ r.radius ∧ 0 < r.falloff ∧
        |env.rnd32 (frame_phase env f N * r.frequency)| ≤ FLT_MAX) →
      warp_frame env src N regions num_regions f = src) := by
  have hstill : ∀ (x y : Int) (phase : ℚ) (region : MotionRegion),
      region.dx = 0 → region.dy = 0 → 1 ≤ region.radius → 0 < region.falloff →
      region_contribution env x y phase region = (some 0, some 0) := by
    intro x y phase region h1 h2 hr hp
    rcases calculate_displacement_cases env henv x y region phase hr hp with h | ⟨v, _, _, h⟩
    · exact region_contribution_zero env henv x y phase region 0 h (Or.inl rfl)
    · exact region_contribution_zero env henv x y phase region _ h (Or.inr ⟨h1, h2⟩)
  refine ⟨fun x y phase region h1 h2 hr hp _ => hstill x y phase region h1 h2 hr hp, ?_, ?_⟩
  · intro x y phase region hr hxy
    exact region_contribution_zero env henv x y phase region 0
      (calculate_displacement_radius_zero env henv x y region phase hr hxy) (Or.inl rfl)
  · intro src regions num_regions N f hlen hfit hreg
    unfold warp_frame
    rw [warp_data_of_total_zero env henv src hlen hfit]
    intro x y
    apply total_displacement_zero env henv
    intro r hr
    obtain ⟨h1, h2, h3, h4, _⟩ := hreg r hr
    exact hstill _ _ _ r h1 h2 h3 h4

/-- Witness for C9 (amended): the reference environment; the still region, of
frequency 1, leaves every frame of the 2x1 image equal to the image. -/
theorem no_displacement_identity_witness :
    ref_env.Sound ∧
    frame_pair.data.length = frame_pair.width * frame_pair.height * frame_pair.channels ∧
    frame_pair.FitsInt ∧
    (∀ r ∈ [region_still], r.dx = 0 ∧ r.dy = 0 ∧ 1 ≤ r.radius ∧ 0 < r.falloff ∧
      |ref_env.rnd32 (frame_phase ref_env 6 24 * r.frequency)| ≤ FLT_MAX) ∧
    (∀ (x y : Int), region_contribution ref_env x y (frame_phase ref_env 6 24) region_still =
      (some 0, some 0)) ∧
    warp_frame ref_env frame_pair 24 [region_still] 1 6 = frame_pair :=
  have hfin : |ref_env.rnd32 (frame_phase ref_env 6 24 * region_still.frequency)| ≤ FLT_MAX := by
    norm_num [ref_env, frame_phase, M_PI, FLT_MAX, region_still, abs_le]
  have hreg : ∀ r ∈ [region_still], r.dx = 0 ∧ r.dy = 0 ∧ 1 ≤ r.radius ∧ 0 < r.falloff ∧
      |ref_env.rnd32 (frame_phase ref_env 6 24 * r.frequency)| ≤ FLT_MAX := by
    intro r hr
    rw [List.mem_singleton.mp hr]
    exact ⟨rfl, rfl, by decide, by norm_num [region_still], hfin⟩
  ⟨ref_env_sound, by decide, by simp [Image.FitsInt, frame_pair], hreg,
    fun x y => (no_displacement_identity ref_env ref_env_sound).1 x y _ region_still rfl rfl
      (by decide) (by norm_num [region_still]) hfin,
    (no_displacement_identity ref_env ref_env_sound).2.2 frame_pair [region_still] 1 24 6
      (by decide) (by simp [Image.FitsInt, frame_pair]) hreg⟩

theorem ref_sqrtf_zero : ref_sqrtf 0 = 0 := by
  norm_num [ref_sqrtf]

/-- At its own centre a region of radius 0 divides 0 by 0: in every environment
with `sqrtf(0) = 0` the displacement is not a number. -/
theorem calculate_displacement_centre_nan (env : FloatEnv) (henv : env.Sound)
    (hsqrt : env.sqrtf 0 = 0) (region : MotionRegion) (phase : ℚ)
    (hr : region.radius = 0) (hp : region.falloff ≠ 0) :
    calculate_displacement env region.x region.y region phase = none := by
  unfold calculate_displacement
  simp [hr, henv.rnd32_zero, hsqrt, FloatEnv.div, FloatEnv.pow, hp, FloatEnv.sub, FloatEnv.mul]

theorem calculate_displacement_region_zero_centre (phase : ℚ) :
    calculate_displacement ref_env 1 0 region_zero phase = none :=
  calculate_displacement_centre_nan ref_env ref_env_sound ref_sqrtf_zero region_zero phase rfl
    (by norm_num [region_zero])

theorem warp_coord_region_zero_centre (phase : ℚ) :
    warp_coord ref_env frame_pair [region_zero] 1 phase 1 0 = (0, 0) := by
  have h := calculate_displacement_region_zero_centre phase
  unfold warp_coord total_displacement
  simp only [List.take, List.foldl, accumulate_step, region_contribution]
  simp only [Nat.cast_one, Nat.cast_zero, h]
  simp [FloatEnv.mul, FloatEnv.add, round_offset, FloatEnv.to_int, ref_env, source_coord,
    INT_MIN, wrap32, clamp_coord, frame_pair]

theorem warp_coord_region_zero_other (phase : ℚ) :
    warp_coord ref_env frame_pair [region_zero] 1 phase 0 0 = (0, 0) := by
  have h := calculate_displacement_radius_zero ref_env ref_env_sound 0 0 region_zero phase rfl
    (Or.inl (by decide))
  have hc := region_contribution_zero ref_env ref_env_sound 0 0 phase region_zero 0 h (Or.inl rfl)
  have ht := total_displacement_zero ref_env ref_env_sound [region_zero] 1 phase 0 0 (by
    intro r hr
    rw [List.mem_singleton.mp hr]
    exact hc)
  unfold warp_coord
  simp only [Nat.cast_zero, ht, round_offset_zero ref_env ref_env_sound]
  exact source_coord_zero frame_pair (by simp [Image.FitsInt, frame_pair]) 0 0 (by decide) (by decide)

/-- C9 (counterexample): the region `region_zero` has `dx = dy = 0` and radius
0; at its own centre, pixel (1, 0), its displacement is 0/0, not a number, so
what it adds to the totals is not zero, and frame 0 of the 2x1 image with this
one region (the conversion of the NaN to `int` giving `INT_MIN`, as on x86)
repeats pixel (0, 0) instead of equalling the source. -/
theorem no_displacement_counterexample :
    region_zero.dx = 0 ∧ region_zero.dy = 0 ∧ region_zero.radius = 0 ∧
    calculate_displacement ref_env 1 0 region_zero 0 = none ∧
    region_contribution ref_env 1 0 0 region_zero ≠ (some 0, some 0) ∧
    (warp_frame ref_env frame_pair 1 [region_zero] 1 0).data = [10, 20, 30, 10, 20, 30] ∧
    warp_frame ref_env frame_pair 1 [region_zero] 1 0 ≠ frame_pair := by
  have hdata : (warp_frame ref_env frame_pair 1 [region_zero] 1 0).data =
      [10, 20, 30, 10, 20, 30] := by
    unfold warp_frame warp_data
    simp only [warp_pixel, warp_coord_region_zero_centre, warp_coord_region_zero_other,
      show frame_pair.height = 1 from rfl, show frame_pair.width = 2 from rfl,
      List.range_succ, List.range_zero, List.nil_append, List.map_cons, List.map_nil,
      List.cons_append]
    simp [src_offset, frame_pair]
  refine ⟨rfl, rfl, rfl, calculate_displacement_region_zero_centre 0, ?_, hdata, ?_⟩
  · unfold region_contribution
    rw [calculate_displacement_region_zero_centre 0]
    simp [FloatEnv.mul]
  · intro h
    rw [h] at hdata
    simp [frame_pair] at hdata

/-- The conversion to `int` of a sum strictly between -1 and 1 is 0. -/
theorem round_offset_eq_zero (env : FloatEnv) (d : ℚ) (h0 : -1 < env.rnd32 (d + 1 / 2))
    (h1 : env.rnd32 (d + 1 / 2) < 1) : round_offset env (some d) = 0 := by
  unfold round_offset FloatEnv.add FloatEnv.to_int
  simp only [trunc_eq_zero _ h0 h1]
  simp [INT_MIN, INT_MAX]

/-- C7 (the code at the failing input): whenever the rounded sum `d + 0.5f` is
strictly between -1 and 0 (for instance `d = -0.7`), the cast `(int)` truncates
it toward zero and the offset is 0, whereas truncation toward minus infinity,
`floor(d + 0.5)`, is -1. -/
theorem round_offset_truncates_toward_zero (env : FloatEnv) (d : ℚ)
    (h0 : -1 < env.rnd32 (d + 1 / 2)) (h1 : env.rnd32 (d + 1 / 2) < 0) :
    round_offset env (some d) = 0 ∧ ⌊env.rnd32 (d + 1 / 2)⌋ = -1 := by
  refine ⟨round_offset_eq_zero env d h0 (by linarith), ?_⟩
  rw [Int.floor_eq_iff]
  constructor
  · push_cast; linarith
  · push_cast; linarith

/-- Witness for C7's evaluation: `d = -0.7` in the reference environment gives
the offset 0, not -1. -/
theorem round_offset_truncates_toward_zero_witness :
    -1 < ref_env.rnd32 (-7 / 10 + 1 / 2) ∧ ref_env.rnd32 (-7 / 10 + 1 / 2) < 0 ∧
    (round_offset ref_env (some (-7 / 10)) = 0 ∧ ⌊ref_env.rnd32 (-7 / 10 + 1 / 2)⌋ = -1) :=
  ⟨by norm_num [ref_env], by norm_num [ref_env],
    round_offset_truncates_toward_zero ref_env (-7 / 10) (by norm_num [ref_env])
      (by norm_num [ref_env])⟩

/-- The reference `sinf` at the phases of frames 1 and 3 of 4. -/
theorem ref_sinf_quarter_turns :
    ref_sinf (2 * M_PI * 1 / 4 * 1) = sin_poly (M_PI / 2) ∧
    ref_sinf (2 * M_PI * 3 / 4 * 1) = -sin_poly (M_PI / 2) := by
  have hr1 : (2 * M_PI * 1 / 4 * 1) / (2 * M_PI) = (1 / 4 : ℚ) := by norm_num [M_PI]
  have hr3 : (2 * M_PI * 3 / 4 * 1) / (2 * M_PI) = (3 / 4 : ℚ) := by norm_num [M_PI]
  have hround1 : round (1 / 4 : ℚ) = 0 := by norm_num
  have hround3 : round (3 / 4 : ℚ) = 1 := by
    rw [round_eq, Int.floor_eq_iff]
    norm_num
  constructor
  · unfold ref_sinf
    simp only [hr1, hround1]
    norm_num [M_PI]
  · unfold ref_sinf
    simp only [hr3, hround3]
    norm_num [M_PI, sin_poly]

/-- The displacement of the vertical region at its centre is the motion factor. -/
theorem calculate_displacement_vertical_centre (phase : ℚ) :
    calculate_displacement ref_env 50 50 region_vertical phase = some (ref_sinf (phase * 1)) := by
  unfold calculate_displacement
  simp only [ref_env, region_vertical, sub_self, Int.cast_zero, mul_zero, add_zero,
    ref_sqrtf_zero, FloatEnv.div, FloatEnv.pow, FloatEnv.sub, FloatEnv.mul]
  norm_num [ref_powf]

/-- The gradient scenario in the reference environment: at the centre of the
region the pull of frame 1 is 10 rows down, that of frame 3 only 9 rows up,
because `(int)(-10 + 0.5)` is -9. -/
theorem vertical_pull_asymmetric :
    warp_coord ref_env frame_hundred [region_vertical] 1 (frame_phase ref_env 1 4) 50 50 =
      (50, 60) ∧
    warp_coord ref_env frame_hundred [region_vertical] 1 (frame_phase ref_env 3 4) 50 50 =
      (50, 41) := by
  obtain ⟨hs1, hs3⟩ := ref_sinf_quarter_turns
  have hm : 29 / 30 ≤ sin_poly (M_PI / 2) ∧ sin_poly (M_PI / 2) < 31 / 30 := by
    norm_num [sin_poly, M_PI]
  obtain ⟨hlo, hhi⟩ := hm
  have hx : ∀ m : ℚ, trunc (0 + m * 0 + 1 / 2) = 0 := by
    intro m
    exact trunc_eq_zero _ (by norm_num) (by norm_num)
  have hy1 : trunc (0 + sin_poly (M_PI / 2) * 10 + 1 / 2) = 10 := by
    unfold trunc
    rw [if_pos (by linarith), Int.floor_eq_iff]
    constructor
    · push_cast; linarith
    · push_cast; linarith
  have hy3 : trunc (0 + -sin_poly (M_PI / 2) * 10 + 1 / 2) = -9 := by
    unfold trunc
    rw [if_neg (by linarith), Int.ceil_eq_iff]
    constructor
    · push_cast; linarith
    · push_cast; linarith
  have hp1 : frame_phase ref_env 1 4 = 2 * M_PI * 1 / 4 := by
    unfold frame_phase
    simp only [ref_env]
    norm_num
  have hp3 : frame_phase ref_env 3 4 = 2 * M_PI * 3 / 4 := by
    unfold frame_phase
    simp only [ref_env]
    norm_num
  constructor
  · rw [hp1]
    unfold warp_coord total_displacement
    simp only [List.take, List.foldl, accumulate_step, region_contribution,
      show ((50 : Nat) : Int) = 50 from rfl, calculate_displacement_vertical_centre, hs1]
    simp only [FloatEnv.mul, FloatEnv.add, round_offset, FloatEnv.to_int, ref_env,
      region_vertical, hx, hy1]
    simp [INT_MIN, INT_MAX, source_coord, wrap32, clamp_coord,
      show frame_hundred.width = 100 from rfl, show frame_hundred.height = 100 from rfl]
  · rw [hp3]
    unfold warp_coord total_displacement
    simp only [List.take, List.foldl, accumulate_step, region_contribution,
      show ((50 : Nat) : Int) = 50 from rfl, calculate_displacement_vertical_centre, hs3]
    simp only [FloatEnv.mul, FloatEnv.add, round_offset, FloatEnv.to_int, ref_env,
      region_vertical, hx, hy3]
    simp [INT_MIN, INT_MAX, source_coord, wrap32, clamp_coord,
      show frame_hundred.width = 100 from rfl, show frame_hundred.height = 100 from rfl]

theorem frame_phase_ref_closing : frame_phase ref_env 4 4 = 2 * M_PI := by
  unfold frame_phase
  simp only [ref_env]
  norm_num

theorem ref_sinf_quarter : ref_sinf (2 * M_PI * (1 / 4)) = sin_poly (M_PI / 2) := by
  have hr : (2 * M_PI * (1 / 4)) / (2 * M_PI) = (1 / 4 : ℚ) := by
    norm_num [M_PI]
  unfold ref_sinf
  simp only [hr]
  have hround : round (1 / 4 : ℚ) = 0 := by norm_num
  rw [hround]
  norm_num [M_PI]

theorem sin_poly_quarter_bounds : 29 / 30 ≤ sin_poly (M_PI / 2) ∧ sin_poly (M_PI / 2) < 31 / 30 := by
  norm_num [sin_poly, M_PI]

theorem calculate_displacement_quarter_centre :
    calculate_displacement ref_env 0 0 region_quarter (2 * M_PI) = some (sin_poly (M_PI / 2)) := by
  unfold calculate_displacement
  simp only [ref_env, region_quarter, sub_self, Int.cast_zero, mul_zero, add_zero, ref_sqrtf_zero,
    Int.cast_one, FloatEnv.div, FloatEnv.pow, FloatEnv.sub, FloatEnv.mul, ref_sinf_quarter]
  norm_num [ref_powf]

theorem warp_coord_quarter_closing :
    warp_coord ref_env frame_pair [region_quarter] 1 (frame_phase ref_env 4 4) 0 0 = (1, 0) := by
  obtain ⟨hlo, hhi⟩ := sin_poly_quarter_bounds
  have hx : trunc (0 + sin_poly (M_PI / 2) * 15 + 1 / 2) = 15 := by
    unfold trunc
    rw [if_pos (by linarith)]
    rw [Int.floor_eq_iff]
    constructor
    · push_cast; linarith
    · push_cast; linarith
  have hy : trunc (0 + sin_poly (M_PI / 2) * 0 + 1 / 2) = 0 :=
    trunc_eq_zero _ (by norm_num) (by norm_num)
  rw [frame_phase_ref_closing]
  unfold warp_coord total_displacement
  simp only [List.take, List.foldl, accumulate_step, region_contribution, Nat.cast_zero,
    calculate_displacement_quarter_centre]
  simp only [FloatEnv.mul, FloatEnv.add, round_offset, FloatEnv.to_int, ref_env, region_quarter,
    hx, hy]
  simp [INT_MIN, INT_MAX, source_coord, wrap32, clamp_coord, frame_pair]


/-- C5 (counterexample): the region `region_quarter` has radius 1, frequency
1/4 and falloff 2.  On the 2x1 image with four frames, pixel (0, 0) pulls from
source coordinate (1, 0) at the closing phase (index 4, phase 2π, where
`sin(2π / 4) = 1`) but from (0, 0) at phase 0, and extended frame 4 differs
from frame 0. -/
theorem loop_closure_counterexample :
    1 ≤ region_quarter.radius ∧ 0 < region_quarter.frequency ∧ 0 < region_quarter.falloff ∧
    warp_coord ref_env frame_pair [region_quarter] 1 (frame_phase ref_env 4 4) 0 0 = (1, 0) ∧
    warp_coord ref_env frame_pair [region_quarter] 1 (frame_phase ref_env 0 4) 0 0 = (0, 0) ∧
    warp_frame ref_env frame_pair 4 [region_quarter] 1 4 ≠
      warp_frame ref_env frame_pair 4 [region_quarter] 1 0 := by
  have hreg : ∀ r ∈ [region_quarter], 1 ≤ r.radius ∧ 0 < r.falloff := by
    intro r hr
    rw [List.mem_singleton.mp hr]
    norm_num [region_quarter]
  have hfit : frame_pair.FitsInt := by simp [Image.FitsInt, frame_pair]
  have h0 := warp_frame_zero_eq ref_env ref_env_sound frame_pair (by decide) hfit
    [region_quarter] 1 hreg 4
  refine ⟨by decide, by norm_num [region_quarter], by norm_num [region_quarter],
    warp_coord_quarter_closing, ?_, ?_⟩
  · rw [frame_phase_zero ref_env ref_env_sound]
    exact warp_coord_phase_zero ref_env ref_env_sound frame_pair hfit [region_quarter] 1 hreg 0 0
      (by decide) (by decide)
  · rw [h0]
    intro h
    have hdata := congrArg Image.data h
    unfold warp_frame warp_data at hdata
    simp only [warp_pixel, warp_coord_quarter_closing,
      show frame_pair.height = 1 from rfl, show frame_pair.width = 2 from rfl,
      List.range_succ, List.range_zero, List.nil_append, List.map_cons, List.map_nil,
      List.cons_append] at hdata
    simp [src_offset, frame_pair] at hdata

/-- Rounding to `float` keeps a magnitude bound that is itself a `float`. -/
theorem FloatEnv.Sound.rnd32_abs_le {env : FloatEnv} (h : env.Sound) (q : ℚ) (n : Int)
    (h0 : 0 ≤ n) (h1 : n ≤ 16777216) (hq : |q| ≤ (n : ℚ) / 1048576) :
    |env.rnd32 q| ≤ (n : ℚ) / 1048576 := by
  obtain ⟨hlo, hhi⟩ := abs_le.mp hq
  have hup := h.rnd32_mono _ _ hhi
  rw [h.rnd32_dyadic n (by omega) h1] at hup
  have hneg : -((n : ℚ) / 1048576) = ((-n : Int) : ℚ) / 1048576 := by push_cast; ring
  rw [hneg] at hlo
  have hdown := h.rnd32_mono _ _ hlo
  rw [h.rnd32_dyadic (-n) (by omega) (by omega)] at hdown
  rw [← hneg] at hdown
  exact abs_le.mpr ⟨hdown, hup⟩

/-- A region whose motion factor is within `2^-10` of zero has a displacement
within `2^-10` of zero. -/
theorem calculate_displacement_small (env : FloatEnv) (henv : env.Sound) (x y : Int)
    (region : MotionRegion) (phase : ℚ) (hr : 1 ≤ region.radius) (hp : 0 < region.falloff)
    (hm : |env.sinf (env.rnd32 (phase * region.frequency))| ≤ 1 / 1024) :
    ∃ v : ℚ, calculate_displacement env x y region phase = some v ∧ |v| ≤ 1 / 1024 := by
  rcases calculate_displacement_cases env henv x y region phase hr hp with h | ⟨w, hw0, hw1, h⟩
  · exact ⟨0, h, by norm_num⟩
  · refine ⟨_, h, ?_⟩
    have hprod : |w * env.sinf (env.rnd32 (phase * region.frequency))| ≤
        ((1024 : Int) : ℚ) / 1048576 := by
      rw [abs_mul, abs_of_nonneg hw0]
      have := mul_le_mul hw1 hm (abs_nonneg _) (by norm_num : (0 : ℚ) ≤ 1)
      norm_num at this ⊢
      linarith
    have := henv.rnd32_abs_le _ 1024 (by norm_num) (by norm_num) hprod
    norm_num at this ⊢
    exact this

/-- Such a region with amplitudes of magnitude at most 15 adds at most `1/64`
to each total. -/
theorem region_contribution_small (env : FloatEnv) (henv : env.Sound) (x y : Int)
    (region : MotionRegion) (phase : ℚ) (hr : 1 ≤ region.radius) (hp : 0 < region.falloff)
    (hdx : |region.dx| ≤ 15) (hdy : |region.dy| ≤ 15)
    (hm : |env.sinf (env.rnd32 (phase * region.frequency))| ≤ 1 / 1024) :
    ∃ a b : ℚ, region_contribution env x y phase region = (some a, some b) ∧
      |a| ≤ 1 / 64 ∧ |b| ≤ 1 / 64 := by
  obtain ⟨v, hv, hvb⟩ := calculate_displacement_small env henv x y region phase hr hp hm
  have hbound : ∀ d : ℚ, |d| ≤ 15 → |env.rnd32 (v * d)| ≤ 1 / 64 := by
    intro d hd
    have hprod : |v * d| ≤ ((16384 : Int) : ℚ) / 1048576 := by
      rw [abs_mul]
      have := mul_le_mul hvb hd (abs_nonneg _) (by norm_num : (0 : ℚ) ≤ 1 / 1024)
      norm_num at this ⊢
      linarith
    have := henv.rnd32_abs_le _ 16384 (by norm_num) (by norm_num) hprod
    norm_num at this ⊢
    exact this
  refine ⟨env.rnd32 (v * region.dx), env.rnd32 (v * region.dy), ?_, hbound _ hdx, hbound _ hdy⟩
  unfold region_contribution
  simp only [hv, FloatEnv.mul]

/-- Totals within `k/64` stay within `(k + 1)/64` after one more such region. -/
theorem accumulate_step_small (env : FloatEnv) (henv : env.Sound) (x y : Int)
    (region : MotionRegion) (phase : ℚ) (s t a b : ℚ) (k : Nat) (hk : k + 1 ≤ 1024)
    (hc : region_contribution env x y phase region = (some a, some b))
    (ha : |a| ≤ 1 / 64) (hb : |b| ≤ 1 / 64)
    (hs : |s| ≤ (k : ℚ) / 64) (ht : |t| ≤ (k : ℚ) / 64) :
    ∃ s' t' : ℚ, accumulate_step env x y phase (some s, some t) region = (some s', some t') ∧
      |s'| ≤ ((k + 1 : Nat) : ℚ) / 64 ∧ |t'| ≤ ((k + 1 : Nat) : ℚ) / 64 := by
  have hbound : ∀ u c : ℚ, |u| ≤ (k : ℚ) / 64 → |c| ≤ 1 / 64 →
      |env.rnd32 (u + c)| ≤ ((k + 1 : Nat) : ℚ) / 64 := by
    intro u c hu hcb
    have hsum : |u + c| ≤ (((k + 1) * 16384 : Nat) : Int) / 1048576 := by
      have := abs_add u c
      push_cast
      linarith
    have := henv.rnd32_abs_le (u + c) (((k + 1) * 16384 : Nat) : Int) (by omega) (by omega) hsum
    push_cast at this ⊢
    linarith
  refine ⟨env.rnd32 (s + a), env.rnd32 (t + b), ?_, hbound s a hs ha, hbound t b ht hb⟩
  unfold accumulate_step
  simp only [hc, FloatEnv.add]

/-- The totals over a list of such regions are finite and within
`(k + length)/64` when they start within `k/64`. -/
theorem foldl_accumulate_small (env : FloatEnv) (henv : env.Sound) (x y : Int) (phase : ℚ)
    (l : List MotionRegion) :
    ∀ (k : Nat) (s t : ℚ), k + l.length ≤ 1024 →
      (∀ r ∈ l, 1 ≤ r.radius ∧ 0 < r.falloff ∧ |r.dx| ≤ 15 ∧ |r.dy| ≤ 15 ∧
        |env.sinf (env.rnd32 (phase * r.frequency))| ≤ 1 / 1024) →
      |s| ≤ (k : ℚ) / 64 → |t| ≤ (k : ℚ) / 64 →
      ∃ s' t' : ℚ, l.foldl (accumulate_step env x y phase) (some s, some t) = (some s', some t') ∧
        |s'| ≤ ((k + l.length : Nat) : ℚ) / 64 ∧ |t'| ≤ ((k + l.length : Nat) : ℚ) / 64 := by
  induction l with
  | nil =>
      intro k s t _ _ hs ht
      exact ⟨s, t, rfl, by simpa using hs, by simpa using ht⟩
  | cons r rs ih =>
      intro k s t hk hreg hs ht
      simp only [List.length_cons] at hk
      obtain ⟨h1, h2, h3, h4, h5⟩ := hreg r (List.mem_cons_self r rs)
      obtain ⟨a, b, hc, ha, hb⟩ := region_contribution_small env henv x y r phase h1 h2 h3 h4 h5
      obtain ⟨s1, t1, hstep, hs1, ht1⟩ :=
        accumulate_step_small env henv x y r phase s t a b k (by omega) hc ha hb hs ht
      obtain ⟨s2, t2, hfold, hs2, ht2⟩ := ih (k + 1) s1 t1 (by omega)
        (fun r' hr' => hreg r' (List.mem_cons_of_mem r hr')) hs1 ht1
      refine ⟨s2, t2, ?_, ?_, ?_⟩
      · rw [List.foldl_cons, hstep, hfold]
      · have : k + 1 + rs.length = k + (r :: rs).length := by simp only [List.length_cons]; omega
        rw [← this]; exact hs2
      · have : k + 1 + rs.length = k + (r :: rs).length := by simp only [List.length_cons]; omega
        rw [← this]; exact ht2

/-- A total of magnitude at most `10/64` rounds to the offset 0. -/
theorem round_offset_small (env : FloatEnv) (henv : env.Sound) (s : ℚ) (hs : |s| ≤ 10 / 64) :
    round_offset env (some s) = 0 := by
  obtain ⟨hlo, hhi⟩ := abs_le.mp hs
  have h34 : env.rnd32 (3 / 4) = 3 / 4 := by
    have := henv.rnd32_dyadic 786432 (by norm_num) (by norm_num)
    norm_num at this
    exact this
  have h0 := henv.rnd32_mono 0 (s + 1 / 2) (by linarith)
  have h1 := henv.rnd32_mono (s + 1 / 2) (3 / 4) (by linarith)
  rw [henv.rnd32_zero] at h0
  rw [h34] at h1
  exact round_offset_eq_zero env s (by linarith) (by linarith)

/-- With at most 10 regions of small closing motion, every pixel inside the
image pulls from its own coordinate at the given phase. -/
theorem warp_coord_small_motion (env : FloatEnv) (henv : env.Sound) (src : Image)
    (hfit : src.FitsInt) (regions : List MotionRegion) (num_regions : Nat)
    (hnum : num_regions ≤ 10) (phase : ℚ)
    (hreg : ∀ r ∈ regions, 1 ≤ r.radius ∧ 0 < r.falloff ∧ |r.dx| ≤ 15 ∧ |r.dy| ≤ 15 ∧
      |env.sinf (env.rnd32 (phase * r.frequency))| ≤ 1 / 1024)
    (x y : Nat) (hx : x < src.width) (hy : y < src.height) :
    warp_coord env src regions num_regions phase x y = ((x : Int), (y : Int)) := by
  have hlen : (regions.take num_regions).length ≤ 10 := by
    rw [List.length_take]
    omega
  obtain ⟨s, t, hfold, hs, ht⟩ := foldl_accumulate_small env henv (x : Int) (y : Int) phase
    (regions.take num_regions) 0 0 0 (by omega)
    (fun r hr => hreg r (List.mem_of_mem_take hr)) (by norm_num) (by norm_num)
  have hbound : ∀ u : ℚ, |u| ≤ ((0 + (regions.take num_regions).length : Nat) : ℚ) / 64 →
      |u| ≤ 10 / 64 := by
    intro u hu
    have hcast : ((0 + (regions.take num_regions).length : Nat) : ℚ) ≤ 10 := by
      exact_mod_cast (by omega : 0 + (regions.take num_regions).length ≤ 10)
    linarith
  unfold warp_coord total_displacement
  simp only [hfold, round_offset_small env henv s (hbound s hs),
    round_offset_small env henv t (hbound t ht)]
  exact source_coord_zero src hfit x y hx hy

/-- C5 (amended): loop closure for regions whose motion factor closes.  For
every sound environment, every source image, every `N`, every list of at most
10 regions with radius at least 1, positive falloff, amplitudes `|dx|, |dy| ≤ 15`
and a frequency at which `sinf(phase_N * frequency)` is within `2^-10` of zero
at the closing phase (index `N`), the source coordinate of every pixel at the
closing phase equals the one at phase 0 (frame 0), and extended frame `N`
equals frame 0. -/
theorem loop_closure_small_motion (env : FloatEnv) (henv : env.Sound) (src : Image)
    (hlen : src.data.length = src.width * src.height * src.channels) (hfit : src.FitsInt)
    (regions : List MotionRegion) (num_regions : Nat) (hnum : num_regions ≤ 10) (N : Nat)
    (hreg : ∀ r ∈ regions, 1 ≤ r.radius ∧ 0 < r.falloff ∧ |r.dx| ≤ 15 ∧ |r.dy| ≤ 15 ∧
      |env.sinf (env.rnd32 (frame_phase env N N * r.frequency))| ≤ 1 / 1024) :
    (∀ x y : Nat, x < src.width → y < src.height →
      warp_coord env src regions num_regions (frame_phase env N N) x y =
        warp_coord env src regions num_regions (frame_phase env 0 N) x y) ∧
    warp_frame env src N regions num_regions N = warp_frame env src N regions num_regions 0 := by
  have hreg0 : ∀ r ∈ regions, 1 ≤ r.radius ∧ 0 < r.falloff :=
    fun r hr => ⟨(hreg r hr).1, (hreg r hr).2.1⟩
  constructor
  · intro x y hx hy
    rw [frame_phase_zero env henv,
      warp_coord_phase_zero env henv src hfit regions num_regions hreg0 x y hx hy]
    exact warp_coord_small_motion env henv src hfit regions num_regions hnum _ hreg x y hx hy
  · rw [warp_frame_zero_eq env henv src hlen hfit regions num_regions hreg0 N]
    unfold warp_frame
    rw [warp_data_identity env src regions num_regions _ hlen]
    intro x y hx hy
    exact warp_coord_small_motion env henv src hfit regions num_regions hnum _ hreg x y hx hy

theorem ref_closing_motion_picked :
    |ref_env.sinf (ref_env.rnd32 (frame_phase ref_env 24 24 * region_picked.frequency))| ≤
      1 / 1024 := by
  have hphase : frame_phase ref_env 24 24 = 2 * M_PI := by
    unfold frame_phase
    simp only [ref_env]
    norm_num
  have hsin : ref_sinf (2 * M_PI * 1) = 0 := by
    have hr : (2 * M_PI * 1) / (2 * M_PI) = (1 : ℚ) := by norm_num [M_PI]
    unfold ref_sinf
    simp only [hr]
    norm_num [M_PI, sin_poly]
  rw [hphase]
  show |ref_sinf (2 * M_PI * region_picked.frequency)| ≤ 1 / 1024
  rw [show region_picked.frequency = 1 from rfl, hsin]
  norm_num

/-- Witness for C5 (amended): the 2x1 image, one picked region of frequency 1,
24 frames, the reference environment. -/
theorem loop_closure_small_motion_witness :
    ref_env.Sound ∧
    frame_pair.data.length = frame_pair.width * frame_pair.height * frame_pair.channels ∧
    frame_pair.FitsInt ∧ 1 ≤ 10 ∧
    (∀ r ∈ [region_picked], 1 ≤ r.radius ∧ 0 < r.falloff ∧ |r.dx| ≤ 15 ∧ |r.dy| ≤ 15 ∧
      |ref_env.sinf (ref_env.rnd32 (frame_phase ref_env 24 24 * r.frequency))| ≤ 1 / 1024) ∧
    ((∀ x y : Nat, x < frame_pair.width → y < frame_pair.height →
      warp_coord ref_env frame_pair [region_picked] 1 (frame_phase ref_env 24 24) x y =
        warp_coord ref_env frame_pair [region_picked] 1 (frame_phase ref_env 0 24) x y) ∧
    warp_frame ref_env frame_pair 24 [region_picked] 1 24 =
      warp_frame ref_env frame_pair 24 [region_picked] 1 0) :=
  have hreg : ∀ r ∈ [region_picked], 1 ≤ r.radius ∧ 0 < r.falloff ∧ |r.dx| ≤ 15 ∧
      |r.dy| ≤ 15 ∧
      |ref_env.sinf (ref_env.rnd32 (frame_phase ref_env 24 24 * r.frequency))| ≤ 1 / 1024 := by
    intro r hr
    rw [List.mem_singleton.mp hr]
    refine ⟨by decide, by norm_num [region_picked], ?_, ?_, ref_closing_motion_picked⟩
    · norm_num [region_picked, abs_le]
    · norm_num [region_picked, abs_le]
  ⟨ref_env_sound, by decide, by simp [Image.FitsInt, frame_pair], by decide, hreg,
    loop_closure_small_motion ref_env ref_env_sound frame_pair (by decide)
      (by simp [Image.FitsInt, frame_pair]) [region_picked] 1 (by decide) 24 hreg⟩

/-! ## Theorems: the channel ranges of a box -/

/-- The scan keeps the six extrema at or beyond their start values and beyond
every colour scanned; each extremum is its start value or a scanned value. -/
theorem find_color_range_foldl_bounds (cs : List Color) :
    ∀ (acc : ColorRange),
      ((cs.foldl find_color_range_step acc).r_min ≤ acc.r_min ∧
        acc.r_max ≤ (cs.foldl find_color_range_step acc).r_max ∧
        (cs.foldl find_color_range_step acc).g_min ≤ acc.g_min ∧
        acc.g_max ≤ (cs.foldl find_color_range_step acc).g_max ∧
        (cs.foldl find_color_range_step acc).b_min ≤ acc.b_min ∧
        acc.b_max ≤ (cs.foldl find_color_range_step acc).b_max) ∧
      (∀ c ∈ cs,
        (cs.foldl find_color_range_step acc).r_min ≤ (c.r : Int) ∧
        (c.r : Int) ≤ (cs.foldl find_color_range_step acc).r_max ∧
        (cs.foldl find_color_range_step acc).g_min ≤ (c.g : Int) ∧
        (c.g : Int) ≤ (cs.foldl find_color_range_step acc).g_max ∧
        (cs.foldl find_color_range_step acc).b_min ≤ (c.b : Int) ∧
        (c.b : Int) ≤ (cs.foldl find_color_range_step acc).b_max) ∧
      (((cs.foldl find_color_range_step acc).r_min = acc.r_min ∨
          ∃ c ∈ cs, (c.r : Int) = (cs.foldl find_color_range_step acc).r_min) ∧
        ((cs.foldl find_color_range_step acc).r_max = acc.r_max ∨
          ∃ c ∈ cs, (c.r : Int) = (cs.foldl find_color_range_step acc).r_max) ∧
        ((cs.foldl find_color_range_step acc).g_min = acc.g_min ∨
          ∃ c ∈ cs, (c.g : Int) = (cs.foldl find_color_range_step acc).g_min) ∧
        ((cs.foldl find_color_range_step acc).g_max = acc.g_max ∨
          ∃ c ∈ cs, (c.g : Int) = (cs.foldl find_color_range_step acc).g_max) ∧
        ((cs.foldl find_color_range_step acc).b_min = acc.b_min ∨
          ∃ c ∈ cs, (c.b : Int) = (cs.foldl find_color_range_step acc).b_min) ∧
        ((cs.foldl find_color_range_step acc).b_max = acc.b_max ∨
          ∃ c ∈ cs, (c.b : Int) = (cs.foldl find_color_range_step acc).b_max)) := by
  induction cs with
  | nil =>
      intro acc
      refine ⟨⟨le_refl _, le_refl _, le_refl _, le_refl _, le_refl _, le_refl _⟩, ?_,
        ⟨Or.inl rfl, Or.inl rfl, Or.inl rfl, Or.inl rfl, Or.inl rfl, Or.inl rfl⟩⟩
      intro c hc
      exact absurd hc (by simp)
  | cons c cs ih =>
      intro acc
      obtain ⟨⟨h1, h2, h3, h4, h5, h6⟩, hall, a1, a2, a3, a4, a5, a6⟩ :=
        ih (find_color_range_step acc c)
      have s1 : (find_color_range_step acc c).r_min ≤ acc.r_min ∧
          (find_color_range_step acc c).r_min ≤ (c.r : Int) ∧
          ((find_color_range_step acc c).r_min = acc.r_min ∨
            (find_color_range_step acc c).r_min = (c.r : Int)) := by
        simp only [find_color_range_step]; split_ifs <;> omega
      have s2 : acc.r_max ≤ (find_color_range_step acc c).r_max ∧
          (c.r : Int) ≤ (find_color_range_step acc c).r_max ∧
          ((find_color_range_step acc c).r_max = acc.r_max ∨
            (find_color_range_step acc c).r_max = (c.r : Int)) := by
        simp only [find_color_range_step]; split_ifs <;> omega
      have s3 : (find_color_range_step acc c).g_min ≤ acc.g_min ∧
          (find_color_range_step acc c).g_min ≤ (c.g : Int) ∧
          ((find_color_range_step acc c).g_min = acc.g_min ∨
            (find_color_range_step acc c).g_min = (c.g : Int)) := by
        simp only [find_color_range_step]; split_ifs <;> omega
      have s4 : acc.g_max ≤ (find_color_range_step acc c).g_max ∧
          (c.g : Int) ≤ (find_color_range_step acc c).g_max ∧
          ((find_color_range_step acc c).g_max = acc.g_max ∨
            (find_color_range_step acc c).g_max = (c.g : Int)) := by
        simp only [find_color_range_step]; split_ifs <;> omega
      have s5 : (find_color_range_step acc c).b_min ≤ acc.b_min ∧
          (find_color_range_step acc c).b_min ≤ (c.b : Int) ∧
          ((find_color_range_step acc c).b_min = acc.b_min ∨
            (find_color_range_step acc c).b_min = (c.b : Int)) := by
        simp only [find_color_range_step]; split_ifs <;> omega
      have s6 : acc.b_max ≤ (find_color_range_step acc c).b_max ∧
          (c.b : Int) ≤ (find_color_range_step acc c).b_max ∧
          ((find_color_range_step acc c).b_max = acc.b_max ∨
            (find_color_range_step acc c).b_max = (c.b : Int)) := by
        simp only [find_color_range_step]; split_ifs <;> omega
      simp only [List.foldl_cons]
      refine ⟨⟨by omega, by omega, by omega, by omega, by omega, by omega⟩, ?_, ?_⟩
      · intro c' hc'
        rcases List.mem_cons.mp hc' with rfl | hc'
        · exact ⟨by omega, by omega, by omega, by omega, by omega, by omega⟩
        · exact hall c' hc'
      · have lift : ∀ (f : Color → Nat) (res start mid : Int),
            (res = mid ∨ ∃ c' ∈ cs, (f c' : Int) = res) →
            (mid = start ∨ mid = (f c : Int)) →
            (res = start ∨ ∃ c' ∈ c :: cs, (f c' : Int) = res) := by
          intro f res start mid hres hmid
          rcases hres with hres | ⟨c', hc', hres⟩
          · rcases hmid with hmid | hmid
            · left; omega
            · right; exact ⟨c, List.mem_cons_self c cs, by omega⟩
          · right; exact ⟨c', List.mem_cons_of_mem c hc', hres⟩
        exact ⟨lift Color.r _ _ _ a1 s1.2.2, lift Color.r _ _ _ a2 s2.2.2,
          lift Color.g _ _ _ a3 s3.2.2, lift Color.g _ _ _ a4 s4.2.2,
          lift Color.b _ _ _ a5 s5.2.2, lift Color.b _ _ _ a6 s6.2.2⟩

/-- For a non-empty box of byte colours `find_color_range` returns the least
and the greatest value of every channel over the box. -/
theorem find_color_range_spec (box : ColorBox) (hc : box.count = box.colors.length)
    (hne : 1 ≤ box.count) (hbyte : ∀ c ∈ box.colors, c.IsByte) :
    IsMinMax Color.r box.colors (find_color_range box).r_min (find_color_range box).r_max ∧
    IsMinMax Color.g box.colors (find_color_range box).g_min (find_color_range box).g_max ∧
    IsMinMax Color.b box.colors (find_color_range box).b_min (find_color_range box).b_max := by
  have htake : box.colors.take box.count = box.colors := by
    rw [hc, List.take_length]
  obtain ⟨c0, hc0⟩ : ∃ c0, c0 ∈ box.colors := by
    apply List.exists_mem_of_length_pos
    omega
  obtain ⟨_, hall, a1, a2, a3, a4, a5, a6⟩ := find_color_range_foldl_bounds box.colors
    { r_min := 255, r_max := 0, g_min := 255, g_max := 0, b_min := 255, b_max := 0 }
  have hfold : find_color_range box = box.colors.foldl find_color_range_step
      { r_min := 255, r_max := 0, g_min := 255, g_max := 0, b_min := 255, b_max := 0 } := by
    unfold find_color_range
    rw [htake]
  rw [hfold]
  obtain ⟨hb1, hb2, hb3⟩ := hbyte c0 hc0
  obtain ⟨m1, m2, m3, m4, m5, m6⟩ := hall c0 hc0
  refine ⟨⟨fun c hcm => ⟨(hall c hcm).1, (hall c hcm).2.1⟩, ?_, ?_⟩,
    ⟨fun c hcm => ⟨(hall c hcm).2.2.1, (hall c hcm).2.2.2.1⟩, ?_, ?_⟩,
    ⟨fun c hcm => ⟨(hall c hcm).2.2.2.2.1, (hall c hcm).2.2.2.2.2⟩, ?_, ?_⟩⟩
  · rcases a1 with h | h
    · exact ⟨c0, hc0, by simp only [] at h; omega⟩
    · exact h
  · rcases a2 with h | h
    · exact ⟨c0, hc0, by simp only [] at h; omega⟩
    · exact h
  · rcases a3 with h | h
    · exact ⟨c0, hc0, by simp only [] at h; omega⟩
    · exact h
  · rcases a4 with h | h
    · exact ⟨c0, hc0, by simp only [] at h; omega⟩
    · exact h
  · rcases a5 with h | h
    · exact ⟨c0, hc0, by simp only [] at h; omega⟩
    · exact h
  · rcases a6 with h | h
    · exact ⟨c0, hc0, by simp only [] at h; omega⟩
    · exact h

/-! ## Theorems: `split_box` -/

/-- The comparator of a sort channel is the difference of the channel values. -/
theorem channel_compare_eq (ch : Nat) (a b : Color) :
    channel_compare ch a b = (channel_value ch a : Int) - (channel_value ch b : Int) := by
  unfold channel_compare channel_value
  split_ifs <;> rfl

/-- The insertion-sort model of `qsort` sorts. -/
theorem qsort_model_sorts : QsortSorts qsort_model := by
  intro ch l
  refine ⟨List.perm_insertionSort _ l, ?_⟩
  haveI : IsTotal Color (fun a b => channel_compare ch a b ≤ 0) :=
    ⟨fun a b => by
      simp only [channel_compare_eq]
      omega⟩
  haveI : IsTrans Color (fun a b => channel_compare ch a b ≤ 0) :=
    ⟨fun a b c hab hbc => by
      simp only [channel_compare_eq] at hab hbc ⊢
      omega⟩
  exact List.sorted_insertionSort (fun a b => channel_compare ch a b ≤ 0) l

/-- A `qsort` that sorts rearranges its input. -/
theorem QsortSorts.permutes {qsort : (Color → Color → Int) → List Color → List Color}
    (h : QsortSorts qsort) (ch : Nat) (l : List Color) :
    List.Perm (qsort (channel_compare ch) l) l := (h ch l).1

/-- The value of `sort_channel` is always 0, 1 or 2, and `channel_compare` of it
is the comparator that `split_box` hands to `qsort`. -/
theorem sort_channel_cases (box : ColorBox) :
    (sort_channel box = 1 ↔ (g_range box ≥ r_range box ∧ g_range box ≥ b_range box)) ∧
    (sort_channel box = 2 ↔
      (¬ (g_range box ≥ r_range box ∧ g_range box ≥ b_range box) ∧
        b_range box ≥ r_range box)) ∧
    (sort_channel box = 0 ↔ (r_range box > g_range box ∧ r_range box > b_range box)) ∧
    r_range box ≤ channel_range box (sort_channel box) ∧
    g_range box ≤ channel_range box (sort_channel box) ∧
    b_range box ≤ channel_range box (sort_channel box) := by
  have hval : sort_channel box =
      if g_range box ≥ r_range box ∧ g_range box ≥ b_range box then 1
      else if b_range box ≥ r_range box ∧ b_range box ≥ g_range box then 2 else 0 := rfl
  by_cases hG : g_range box ≥ r_range box ∧ g_range box ≥ b_range box
  · have h1 : sort_channel box = 1 := by rw [hval, if_pos hG]
    have hr : channel_range box 1 = g_range box := rfl
    rw [h1, hr]
    refine ⟨⟨fun _ => hG, fun _ => rfl⟩, ⟨fun h => absurd h (by decide), fun h => absurd hG h.1⟩,
      ⟨fun h => absurd h (by decide), fun h => by omega⟩, hG.1, le_refl _, hG.2⟩
  · by_cases hB : b_range box ≥ r_range box ∧ b_range box ≥ g_range box
    · have h2 : sort_channel box = 2 := by rw [hval, if_neg hG, if_pos hB]
      have hr : channel_range box 2 = b_range box := rfl
      rw [h2, hr]
      refine ⟨⟨fun h => absurd h (by decide), fun h => absurd h hG⟩,
        ⟨fun _ => ⟨hG, hB.1⟩, fun _ => rfl⟩,
        ⟨fun h => absurd h (by decide), fun h => by omega⟩, hB.1, hB.2, le_refl _⟩
    · have h0 : sort_channel box = 0 := by rw [hval, if_neg hG, if_neg hB]
      have hr : channel_range box 0 = r_range box := rfl
      rw [h0, hr]
      have hlt : r_range box > g_range box ∧ r_range box > b_range box := by
        rw [not_and_or] at hG hB
        omega
      refine ⟨⟨fun h => absurd h (by decide), fun h => absurd h hG⟩,
        ⟨fun h => absurd h (by decide), fun h => ?_⟩,
        ⟨fun _ => hlt, fun _ => rfl⟩, le_refl _, by omega, by omega⟩
      omega

/-- The two boxes of `split_box` for a box whose `count` is the length of its
slice: the sorted colours cut at `count / 2`. -/
theorem split_box_eq (qsort : (Color → Color → Int) → List Color → List Color)
    (box : ColorBox) (hc : box.count = box.colors.length)
    (hlen : (qsort (channel_compare (sort_channel box)) box.colors).length = box.colors.length) :
    split_box qsort box =
      ({ colors := (qsort (channel_compare (sort_channel box)) box.colors).take (box.count / 2),
         count := box.count / 2 },
       { colors := (qsort (channel_compare (sort_channel box)) box.colors).drop (box.count / 2),
         count := box.count - box.count / 2 }) := by
  have hsorted : qsort (channel_compare (sort_channel box)) (box.colors.take box.count) ++
      box.colors.drop box.count = qsort (channel_compare (sort_channel box)) box.colors := by
    rw [hc, List.take_length, List.drop_length, List.append_nil]
  have htake : ((qsort (channel_compare (sort_channel box)) box.colors).drop (box.count / 2)).take
      (box.count - box.count / 2) =
      (qsort (channel_compare (sort_channel box)) box.colors).drop (box.count / 2) := by
    apply List.take_of_length_le
    rw [List.length_drop, hlen, hc]
  unfold split_box
  simp only [hsorted, htake]

/-- C13: for every non-empty colour box of byte colours and every `qsort` that
sorts, the ranges that `split_box` compares are the greatest minus the least
value of each channel over the box; the sort channel is G exactly when
`g_range >= r_range` and `g_range >= b_range`, otherwise B exactly when
`b_range >= r_range`, and R exactly when its range is strictly the largest, so
the chosen channel has the largest range; the colours are rearranged in
non-decreasing order of that channel, the first `count / 2` of them go to the
lower box and the remaining `count - count / 2`, starting with the median
element, to the upper box. -/
theorem split_box_channel_and_median
    (qsort : (Color → Color → Int) → List Color → List Color) (hq : QsortSorts qsort)
    (box : ColorBox) (hc : box.count = box.colors.length) (hne : 1 ≤ box.count)
    (hbyte : ∀ c ∈ box.colors, c.IsByte) :
    (IsMinMax Color.r box.colors (find_color_range box).r_min (find_color_range box).r_max ∧
      IsMinMax Color.g box.colors (find_color_range box).g_min (find_color_range box).g_max ∧
      IsMinMax Color.b box.colors (find_color_range box).b_min (find_color_range box).b_max) ∧
    (sort_channel box = 1 ↔ (g_range box ≥ r_range box ∧ g_range box ≥ b_range box)) ∧
    (sort_channel box = 2 ↔
      (¬ (g_range box ≥ r_range box ∧ g_range box ≥ b_range box) ∧
        b_range box ≥ r_range box)) ∧
    (sort_channel box = 0 ↔ (r_range box > g_range box ∧ r_range box > b_range box)) ∧
    (r_range box ≤ channel_range box (sort_channel box) ∧
      g_range box ≤ channel_range box (sort_channel box) ∧
      b_range box ≤ channel_range box (sort_channel box)) ∧
    List.Perm (qsort (channel_compare (sort_channel box)) box.colors) box.colors ∧
    List.Pairwise
      (fun a b => channel_value (sort_channel box) a ≤ channel_value (sort_channel box) b)
      (qsort (channel_compare (sort_channel box)) box.colors) ∧
    (split_box qsort box).1 =
      { colors := (qsort (channel_compare (sort_channel box)) box.colors).take (box.count / 2),
        count := box.count / 2 } ∧
    (split_box qsort box).2 =
      { colors := (qsort (channel_compare (sort_channel box)) box.colors).drop (box.count / 2),
        count := box.count - box.count / 2 } ∧
    (split_box qsort box).1.colors.length = box.count / 2 ∧
    (split_box qsort box).2.colors.length = box.count - box.count / 2 ∧
    (∃ median ∈ box.colors,
      (qsort (channel_compare (sort_channel box)) box.colors)[box.count / 2]? = some median ∧
      (split_box qsort box).2.colors.head? = some median) := by
  obtain ⟨h1, h2, h0, hr, hg, hb⟩ := sort_channel_cases box
  obtain ⟨hperm, hsorted⟩ := hq (sort_channel box) box.colors
  have hlen := hperm.length_eq
  have hsplit := split_box_eq qsort box hc hlen
  have hm : box.count / 2 < (qsort (channel_compare (sort_channel box)) box.colors).length := by
    rw [hlen, ← hc]
    omega
  refine ⟨find_color_range_spec box hc hne hbyte, h1, h2, h0, ⟨hr, hg, hb⟩, hperm, ?_, ?_, ?_,
    ?_, ?_, ?_⟩
  · refine hsorted.imp ?_
    intro a b hab
    rw [channel_compare_eq] at hab
    omega
  · rw [hsplit]
  · rw [hsplit]
  · rw [hsplit]
    simp only [List.length_take]
    omega
  · rw [hsplit]
    simp only [List.length_drop]
    omega
  · refine ⟨(qsort (channel_compare (sort_channel box)) box.colors)[box.count / 2],
      hperm.subset (List.getElem_mem hm), List.getElem?_eq_getElem hm, ?_⟩
    rw [hsplit]
    simp only [List.head?_drop]
    exact List.getElem?_eq_getElem hm

/-- Witness for C13: the box of the 4x1 frame and the insertion-sort `qsort`. -/
theorem split_box_channel_and_median_witness :
    QsortSorts qsort_model ∧
    (initial_box frame_four).count = (initial_box frame_four).colors.length ∧
    1 ≤ (initial_box frame_four).count ∧
    (∀ c ∈ (initial_box frame_four).colors, c.IsByte) ∧
    sort_channel (initial_box frame_four) = 1 ∧
    split_box qsort_model (initial_box frame_four) =
      ({ colors := [black, red], count := 2 }, { colors := [blue, green], count := 2 }) ∧
    ((split_box qsort_model (initial_box frame_four)).2.colors.length =
      (initial_box frame_four).count - (initial_box frame_four).count / 2) :=
  have hbyte : ∀ c ∈ (initial_box frame_four).colors, c.IsByte := by
    intro c hc
    have hcs : (initial_box frame_four).colors = [black, red, green, blue] := by decide
    rw [hcs] at hc
    simp only [List.mem_cons, List.mem_singleton, List.not_mem_nil, or_false] at hc
    rcases hc with rfl | rfl | rfl | rfl <;> exact ⟨by decide, by decide, by decide⟩
  ⟨qsort_model_sorts, by decide, by decide, hbyte, by decide, by decide,
    (split_box_channel_and_median qsort_model qsort_model_sorts (initial_box frame_four)
      (by decide) (by decide) hbyte).2.2.2.2.2.2.2.2.2.2.1⟩

/-! ## Theorems: `median_cut` of the four-colour frame -/

/-- The result of a sorting `qsort` on a list of two different colours is a
list of two of them, without repetition and in order. -/
theorem qsort_pair (qsort : (Color → Color → Int) → List Color → List Color)
    (hq : QsortSorts qsort) (ch : Nat) (a b : Color) (hne : a ≠ b) :
    ∃ w x : Color, qsort (channel_compare ch) [a, b] = [w, x] ∧ w ∈ [a, b] ∧ x ∈ [a, b] ∧
      [w, x].Nodup ∧ List.Pairwise (fun p q => channel_compare ch p q ≤ 0) [w, x] := by
  obtain ⟨hperm, hsorted⟩ := hq ch [a, b]
  have hlen := hperm.length_eq
  have hnodup : (qsort (channel_compare ch) [a, b]).Nodup :=
    hperm.nodup_iff.mpr (by simp [hne])
  match hs : qsort (channel_compare ch) [a, b], hlen with
  | [w, x], _ =>
      rw [hs] at hperm hsorted hnodup
      exact ⟨w, x, rfl, hperm.subset (by simp), hperm.subset (by simp), hnodup, hsorted⟩

/-- The result of a sorting `qsort` on the four colours of the 4x1 frame. -/
theorem qsort_four (qsort : (Color → Color → Int) → List Color → List Color)
    (hq : QsortSorts qsort) (ch : Nat) :
    ∃ w x y z : Color, qsort (channel_compare ch) [black, red, green, blue] = [w, x, y, z] ∧
      w ∈ [black, red, green, blue] ∧ x ∈ [black, red, green, blue] ∧
      y ∈ [black, red, green, blue] ∧ z ∈ [black, red, green, blue] ∧
      [w, x, y, z].Nodup ∧ List.Pairwise (fun p q => channel_compare ch p q ≤ 0) [w, x, y, z] := by
  obtain ⟨hperm, hsorted⟩ := hq ch [black, red, green, blue]
  have hlen := hperm.length_eq
  have hnodup : (qsort (channel_compare ch) [black, red, green, blue]).Nodup :=
    hperm.nodup_iff.mpr (by decide)
  match hs : qsort (channel_compare ch) [black, red, green, blue], hlen with
  | [w, x, y, z], _ =>
      rw [hs] at hperm hsorted hnodup
      exact ⟨w, x, y, z, rfl, hperm.subset (by simp), hperm.subset (by simp),
        hperm.subset (by simp), hperm.subset (by simp), hnodup, hsorted⟩

set_option maxRecDepth 100000 in
/-- Sorted by G, the four colours end with green; the three others come in any order. -/
theorem sorted_by_g_options :
    ∀ w ∈ [black, red, green, blue], ∀ x ∈ [black, red, green, blue],
    ∀ y ∈ [black, red, green, blue], ∀ z ∈ [black, red, green, blue],
    [w, x, y, z].Nodup →
    List.Pairwise (fun a b => channel_compare 1 a b ≤ 0) [w, x, y, z] →
    [w, x, y, z] ∈ [[black, red, blue, green], [red, black, blue, green],
      [black, blue, red, green], [blue, black, red, green],
      [red, blue, black, green], [blue, red, black, green]] := by
  decide

/-- The splitting loop on the 4x1 frame, given the results of the three calls
of `qsort` that it makes. -/
theorem median_cut_boxes_four (qsort : (Color → Color → Int) → List Color → List Color)
    (a b c lo hi : Color) (ch2 : Nat)
    (h1 : qsort (channel_compare 1) [black, red, green, blue] = [a, b, c, green])
    (hch2 : sort_channel { colors := [a, b], count := 2 } = ch2)
    (h2 : qsort (channel_compare ch2) [a, b] = [lo, hi])
    (hch3 : sort_channel { colors := [c, green], count := 2 } = 1)
    (h3 : qsort (channel_compare 1) [c, green] = [c, green])
    (hsel2 : select_box [{ colors := [a, b], count := 2 }, { colors := [c, green], count := 2 }]
      = 0)
    (hsel3 : select_box [{ colors := [lo], count := 1 }, { colors := [c, green], count := 2 },
      { colors := [hi], count := 1 }] = 1) :
    median_cut_boxes qsort frame_four 4 =
      [{ colors := [lo], count := 1 }, { colors := [c], count := 1 },
       { colors := [hi], count := 1 }, { colors := [green], count := 1 }] := by
  have hinit : initial_box frame_four = { colors := [black, red, green, blue], count := 4 } := by
    decide
  have hsel1 : select_box [{ colors := [black, red, green, blue], count := 4 }] = 0 := by decide
  have hch1 : sort_channel { colors := [black, red, green, blue], count := 4 } = 1 := by decide
  unfold median_cut_boxes
  rw [hinit]
  simp [median_cut_loop, median_cut_step, split_box, hsel1, hch1, h1, hsel2, hch2, h2,
    hsel3, hch3, h3]

/-- A sorting `qsort` on two different colours returns the only ordered arrangement. -/
theorem qsort_pair_eq (qsort : (Color → Color → Int) → List Color → List Color)
    (hq : QsortSorts qsort) (ch : Nat) (a b lo hi : Color) (hne : a ≠ b)
    (hdec : ∀ w ∈ [a, b], ∀ x ∈ [a, b], [w, x].Nodup →
      List.Pairwise (fun p q => channel_compare ch p q ≤ 0) [w, x] → [w, x] = [lo, hi]) :
    qsort (channel_compare ch) [a, b] = [lo, hi] := by
  obtain ⟨w, x, hs, hw, hx, hnd, hsorted⟩ := qsort_pair qsort hq ch a b hne
  rw [hs]
  exact hdec w hw x hx hnd hsorted

/-- The palette of the 4x1 frame for each way a sorting `qsort` may order the
three colours whose G is 0. -/
theorem median_cut_four_cases (qsort : (Color → Color → Int) → List Color → List Color)
    (hq : QsortSorts qsort) :
    median_cut qsort frame_four 4 = some [black, blue, red, green] ∨
    median_cut qsort frame_four 4 = some [black, red, blue, green] ∨
    median_cut qsort frame_four 4 = some [red, black, blue, green] := by
  obtain ⟨w, x, y, z, hs, hw, hx, hy, hz, hnd, hsorted⟩ := qsort_four qsort hq 1
  have hopt := sorted_by_g_options w hw x hx y hy z hz hnd hsorted
  have hblue : qsort (channel_compare 1) [blue, green] = [blue, green] :=
    qsort_pair_eq qsort hq 1 blue green blue green (by decide) (by decide)
  have hred : qsort (channel_compare 1) [red, green] = [red, green] :=
    qsort_pair_eq qsort hq 1 red green red green (by decide) (by decide)
  have hblack : qsort (channel_compare 1) [black, green] = [black, green] :=
    qsort_pair_eq qsort hq 1 black green black green (by decide) (by decide)
  simp only [List.mem_cons, List.mem_singleton, List.not_mem_nil, or_false] at hopt
  unfold median_cut
  rcases hopt with h | h | h | h | h | h
  · rw [h] at hs
    left
    rw [median_cut_boxes_four qsort black red blue black red 0 hs (by decide)
      (qsort_pair_eq qsort hq 0 black red black red (by decide) (by decide)) (by decide) hblue
      (by decide) (by decide)]
    decide
  · rw [h] at hs
    left
    rw [median_cut_boxes_four qsort red black blue black red 0 hs (by decide)
      (qsort_pair_eq qsort hq 0 red black black red (by decide) (by decide)) (by decide) hblue
      (by decide) (by decide)]
    decide
  · rw [h] at hs
    right; left
    rw [median_cut_boxes_four qsort black blue red black blue 2 hs (by decide)
      (qsort_pair_eq qsort hq 2 black blue black blue (by decide) (by decide)) (by decide) hred
      (by decide) (by decide)]
    decide
  · rw [h] at hs
    right; left
    rw [median_cut_boxes_four qsort blue black red black blue 2 hs (by decide)
      (qsort_pair_eq qsort hq 2 blue black black blue (by decide) (by decide)) (by decide) hred
      (by decide) (by decide)]
    decide
  · rw [h] at hs
    right; right
    rw [median_cut_boxes_four qsort red blue black red blue 2 hs (by decide)
      (qsort_pair_eq qsort hq 2 red blue red blue (by decide) (by decide)) (by decide) hblack
      (by decide) (by decide)]
    decide
  · rw [h] at hs
    right; right
    rw [median_cut_boxes_four qsort blue red black red blue 2 hs (by decide)
      (qsort_pair_eq qsort hq 2 blue red red blue (by decide) (by decide)) (by decide) hblack
      (by decide) (by decide)]
    decide

/-- C12 (counterexample): with the stable insertion-sort `qsort`, `median_cut`
of the 4x1 frame with `K = 4` returns the palette black, blue, red, green, and
`create_color_index_buffer` of the frame against it is `[0, 2, 3, 1]`, not
`[0, 1, 2, 3]`. -/
theorem median_cut_four_counterexample :
    median_cut qsort_model frame_four 4 = some [black, blue, red, green] ∧
    create_color_index_buffer frame_four [black, blue, red, green] = [0, 2, 3, 1] ∧
    create_color_index_buffer frame_four [black, blue, red, green] ≠ [0, 1, 2, 3] := by
  decide

/-- C12 (amended): for the 4x1 frame black, red, green, blue and every `qsort`
that sorts, `median_cut` with `K = 4` returns a 4-entry palette made of exactly
those four colours with green as its last entry, and
`create_color_index_buffer` maps every pixel to the palette entry equal to the
pixel's colour; the palette and the index buffer are black, blue, red, green
with `[0, 2, 3, 1]`, or black, red, blue, green with `[0, 1, 3, 2]`, or red,
black, blue, green with `[1, 0, 3, 2]`, according to the order in which `qsort`
leaves the colours of equal G; the buffer is never `[0, 1, 2, 3]`. -/
theorem median_cut_four_palette (qsort : (Color → Color → Int) → List Color → List Color)
    (hq : QsortSorts qsort) :
    ∃ palette : List Color, median_cut qsort frame_four 4 = some palette ∧
      palette.length = 4 ∧ List.Perm palette (all_colors frame_four) ∧
      palette[3]? = some green ∧
      (create_color_index_buffer frame_four palette).map (fun k => palette[k]?) =
        (all_colors frame_four).map some ∧
      ((palette = [black, blue, red, green] ∧
          create_color_index_buffer frame_four palette = [0, 2, 3, 1]) ∨
        (palette = [black, red, blue, green] ∧
          create_color_index_buffer frame_four palette = [0, 1, 3, 2]) ∨
        (palette = [red, black, blue, green] ∧
          create_color_index_buffer frame_four palette = [1, 0, 3, 2])) ∧
      create_color_index_buffer frame_four palette ≠ [0, 1, 2, 3] := by
  rcases median_cut_four_cases qsort hq with h | h | h
  · exact ⟨_, h, by decide⟩
  · exact ⟨_, h, by decide⟩
  · exact ⟨_, h, by decide⟩

/-- Witness for C12 (amended): the insertion-sort `qsort`, which is stable. -/
theorem median_cut_four_palette_witness :
    QsortSorts qsort_model ∧
    ∃ palette : List Color, median_cut qsort_model frame_four 4 = some palette ∧
      palette.length = 4 ∧ List.Perm palette (all_colors frame_four) ∧
      palette[3]? = some green ∧
      (create_color_index_buffer frame_four palette).map (fun k => palette[k]?) =
        (all_colors frame_four).map some ∧
      ((palette = [black, blue, red, green] ∧
          create_color_index_buffer frame_four palette = [0, 2, 3, 1]) ∨
        (palette = [black, red, blue, green] ∧
          create_color_index_buffer frame_four palette = [0, 1, 3, 2]) ∨
        (palette = [red, black, blue, green] ∧
          create_color_index_buffer frame_four palette = [1, 0, 3, 2])) ∧
      create_color_index_buffer frame_four palette ≠ [0, 1, 2, 3] :=
  ⟨qsort_model_sorts, median_cut_four_palette qsort_model qsort_model_sorts⟩

/-! ## Theorems: frames with enough colours -/

/-- The selection loop returns its initial `box_to_split` when no box has a
range above `max_range`, and otherwise the index of a box of the greatest range. -/
theorem select_box_scan_max (rest : List ColorBox) :
    ∀ (i : Nat) (max_range box_to_split : Int),
      (select_box_scan rest i max_range box_to_split = box_to_split ∧
        ∀ b ∈ rest, box_range b ≤ max_range) ∨
      (∃ (j : Nat) (hj : j < rest.length),
        select_box_scan rest i max_range box_to_split = ((i + j : Nat) : Int) ∧
        max_range < box_range rest[j] ∧ ∀ b ∈ rest, box_range b ≤ box_range rest[j]) := by
  induction rest with
  | nil => intro i mr b; left; exact ⟨rfl, fun b hb => absurd hb (by simp)⟩
  | cons box rest ih =>
      intro i mr bts
      simp only [select_box_scan]
      split
      · rename_i hgt
        right
        rcases ih (i + 1) (box_range box) (i : Int) with ⟨hk, hall⟩ | ⟨j, hj, hk, hlt, hall⟩
        · refine ⟨0, by simp, by rw [hk]; simp, by simpa using hgt, ?_⟩
          intro b hb
          rcases List.mem_cons.mp hb with rfl | hb
          · simp
          · simpa using hall b hb
        · refine ⟨j + 1, by simpa using hj, ?_, ?_, ?_⟩
          · rw [hk]; push_cast; omega
          · simp only [List.getElem_cons_succ]; omega
          · intro b hb
            simp only [List.getElem_cons_succ]
            rcases List.mem_cons.mp hb with rfl | hb
            · omega
            · exact hall b hb
      · rename_i hle
        rcases ih (i + 1) mr bts with ⟨hk, hall⟩ | ⟨j, hj, hk, hlt, hall⟩
        · left
          refine ⟨hk, ?_⟩
          intro b hb
          rcases List.mem_cons.mp hb with rfl | hb
          · omega
          · exact hall b hb
        · right
          refine ⟨j + 1, by simpa using hj, ?_, ?_, ?_⟩
          · rw [hk]; push_cast; omega
          · simp only [List.getElem_cons_succ]; exact hlt
          · intro b hb
            simp only [List.getElem_cons_succ]
            rcases List.mem_cons.mp hb with rfl | hb
            · omega
            · exact hall b hb

/-- The box that `median_cut` picks has the greatest range of all boxes. -/
theorem select_box_max (boxes : List ColorBox) (i : Nat) (hi : i < boxes.length)
    (hsel : select_box boxes = (i : Int)) :
    ∀ b ∈ boxes, box_range b ≤ box_range boxes[i] := by
  unfold select_box at hsel
  rcases select_box_scan_max boxes 0 (-1) (-1) with ⟨hk, _⟩ | ⟨j, hj, hk, _, hall⟩
  · rw [hk] at hsel
    omega
  · rw [hk] at hsel
    have hij : j = i := by
      have : ((0 + j : Nat) : Int) = (i : Int) := hsel
      omega
    subst hij
    exact hall

/-- The range of a box is at least the range of each channel. -/
theorem box_range_ge (box : ColorBox) :
    r_range box ≤ box_range box ∧ g_range box ≤ box_range box ∧ b_range box ≤ box_range box := by
  unfold box_range r_range g_range b_range
  simp only []
  split_ifs <;> omega

/-- The range of a box is the range of one of its channels. -/
theorem box_range_eq (box : ColorBox) :
    box_range box = r_range box ∨ box_range box = g_range box ∨ box_range box = b_range box := by
  unfold box_range r_range g_range b_range
  simp only []
  split_ifs <;> omega

/-- All colours of a box of range at most zero are the same. -/
theorem box_range_nonpos_eq (box : ColorBox) (hc : box.count = box.colors.length)
    (hr : box_range box ≤ 0) : ∀ c ∈ box.colors, ∀ c' ∈ box.colors, c = c' := by
  have htake : box.colors.take box.count = box.colors := by rw [hc, List.take_length]
  obtain ⟨_, hall, _⟩ := find_color_range_foldl_bounds box.colors
    { r_min := 255, r_max := 0, g_min := 255, g_max := 0, b_min := 255, b_max := 0 }
  have hfold : find_color_range box = box.colors.foldl find_color_range_step
      { r_min := 255, r_max := 0, g_min := 255, g_max := 0, b_min := 255, b_max := 0 } := by
    unfold find_color_range
    rw [htake]
  obtain ⟨h1, h2, h3⟩ := box_range_ge box
  unfold r_range at h1
  unfold g_range at h2
  unfold b_range at h3
  rw [hfold] at h1 h2 h3
  intro c hcm c' hcm'
  obtain ⟨a1, a2, a3, a4, a5, a6⟩ := hall c hcm
  obtain ⟨b1, b2, b3, b4, b5, b6⟩ := hall c' hcm'
  have er : c.r = c'.r := by omega
  have eg : c.g = c'.g := by omega
  have eb : c.b = c'.b := by omega
  cases c
  cases c'
  simp only [Color.mk.injEq]
  exact ⟨er, eg, eb⟩

/-- A box of byte colours with a positive range holds at least two colours. -/
theorem box_range_pos_count (box : ColorBox) (hc : box.count = box.colors.length)
    (hbyte : ∀ c ∈ box.colors, c.IsByte) (hr : 1 ≤ box_range box) : 2 ≤ box.count := by
  by_contra hlt
  have hcount : box.count = 0 ∨ box.count = 1 := by omega
  rcases hcount with h0 | h1
  · have hnil : box.colors = [] := List.length_eq_zero.mp (by omega)
    have : box_range box = -255 := by
      unfold box_range find_color_range
      rw [hnil, List.take_nil]
      rfl
    omega
  · obtain ⟨c, hcs⟩ := List.length_eq_one.mp (by omega : box.colors.length = 1)
    obtain ⟨⟨_, ⟨x1, hx1, e1⟩, ⟨x2, hx2, e2⟩⟩, ⟨_, ⟨y1, hy1, f1⟩, ⟨y2, hy2, f2⟩⟩,
      ⟨_, ⟨z1, hz1, g1⟩, ⟨z2, hz2, g2⟩⟩⟩ := find_color_range_spec box hc (by omega) hbyte
    rw [hcs] at hx1 hx2 hy1 hy2 hz1 hz2
    simp only [List.mem_singleton] at hx1 hx2 hy1 hy2 hz1 hz2
    subst hx1 hx2 hy1 hy2 hz1 hz2
    rcases box_range_eq box with h | h | h
    · unfold r_range at h; omega
    · unfold g_range at h; omega
    · unfold b_range at h; omega

/-- Boxes that each hold one colour only hold at most as many different
colours as there are boxes. -/
theorem distinct_le_length (boxes : List ColorBox)
    (h : ∀ b ∈ boxes, ∀ c ∈ b.colors, ∀ c' ∈ b.colors, c = c') :
    (boxes_multiset boxes).toFinset.card ≤ boxes.length := by
  induction boxes with
  | nil => simp [boxes_multiset]
  | cons b bs ih =>
      have hb : ((b.colors : Multiset Color)).toFinset.card ≤ 1 := by
        apply Finset.card_le_one.mpr
        intro x hx y hy
        rw [Multiset.mem_toFinset, Multiset.mem_coe] at hx hy
        exact h b (List.mem_cons_self b bs) x hx y hy
      have hrest := ih (fun b' hb' => h b' (List.mem_cons_of_mem b hb'))
      have hsplit : boxes_multiset (b :: bs) = (b.colors : Multiset Color) + boxes_multiset bs := by
        simp [boxes_multiset]
      rw [hsplit, Multiset.toFinset_add]
      have := Finset.card_union_le ((b.colors : Multiset Color)).toFinset
        (boxes_multiset bs).toFinset
      simp only [List.length_cons]
      omega

/-- When the boxes hold at least `K` different byte colours and there are fewer
than `K` boxes, one iteration of the splitting loop leaves every box non-empty. -/
theorem median_cut_step_nonempty (qsort : (Color → Color → Int) → List Color → List Color)
    (hq : QsortPermutes qsort) (color_depth : Nat) (boxes boxes' : List ColorBox)
    (h : median_cut_step qsort color_depth boxes = some boxes')
    (hJ : ∀ b ∈ boxes, b.count = b.colors.length ∧ 1 ≤ b.count ∧ ∀ c ∈ b.colors, c.IsByte)
    (hd : color_depth ≤ (boxes_multiset boxes).toFinset.card) :
    ∀ b ∈ boxes', b.count = b.colors.length ∧ 1 ≤ b.count ∧ ∀ c ∈ b.colors, c.IsByte := by
  obtain ⟨hlt, i, hi, hsel, rfl⟩ := median_cut_step_some qsort color_depth boxes boxes' h
  have hex : ∃ b ∈ boxes, 1 ≤ box_range b := by
    by_contra hno
    push_neg at hno
    have := distinct_le_length boxes (fun b hb =>
      box_range_nonpos_eq b (hJ b hb).1 (by have := hno b hb; omega))
    omega
  obtain ⟨b0, hb0, hr0⟩ := hex
  have hmax := select_box_max boxes i hi hsel b0 hb0
  obtain ⟨hci, _, hbytei⟩ := hJ boxes[i] (List.getElem_mem hi)
  have hcount := box_range_pos_count boxes[i] hci hbytei (by omega)
  obtain ⟨hms, hc1, hc2, hn1, hn2⟩ := split_box_spec qsort hq boxes[i] hci
  have hsub : ∀ c, (c ∈ (split_box qsort boxes[i]).1.colors ∨
      c ∈ (split_box qsort boxes[i]).2.colors) → c ∈ boxes[i].colors := by
    intro c hc
    have hmem : c ∈ ((split_box qsort boxes[i]).1.colors : Multiset Color) +
        ((split_box qsort boxes[i]).2.colors : Multiset Color) := by
      rw [Multiset.mem_add, Multiset.mem_coe, Multiset.mem_coe]
      exact hc
    rw [hms, Multiset.mem_coe] at hmem
    exact hmem
  intro b hb
  rcases List.mem_append.mp hb with hb | hb
  · rcases List.mem_or_eq_of_mem_set hb with hb | hb
    · exact hJ b hb
    · rw [hb]
      refine ⟨hc1, by rw [hn1]; omega, fun c hc => hbytei c (hsub c (Or.inl hc))⟩
  · rw [List.mem_singleton.mp hb]
    refine ⟨hc2, by rw [hn2]; omega, fun c hc => hbytei c (hsub c (Or.inr hc))⟩

/-- With at least `K` different byte colours every box stays non-empty through
the splitting loop. -/
theorem median_cut_loop_nonempty (qsort : (Color → Color → Int) → List Color → List Color)
    (hq : QsortPermutes qsort) (color_depth : Nat) (n : Nat) :
    ∀ (boxes : List ColorBox),
      (∀ b ∈ boxes, b.count = b.colors.length ∧ 1 ≤ b.count ∧ ∀ c ∈ b.colors, c.IsByte) →
      color_depth ≤ (boxes_multiset boxes).toFinset.card →
      ∀ b ∈ median_cut_loop qsort color_depth n boxes,
        b.count = b.colors.length ∧ 1 ≤ b.count ∧ ∀ c ∈ b.colors, c.IsByte := by
  induction n with
  | zero => intro boxes hJ _; exact hJ
  | succ n ih =>
      intro boxes hJ hd
      unfold median_cut_loop
      cases hstep : median_cut_step qsort color_depth boxes with
      | none => exact hJ
      | some boxes' =>
          have hJ' := median_cut_step_nonempty qsort hq color_depth boxes boxes' hstep hJ hd
          obtain ⟨_, _, hms, _, _⟩ := median_cut_step_invariant qsort hq color_depth boxes boxes'
            hstep (fun b hb => (hJ b hb).1)
          exact ih boxes' hJ' (by rw [hms]; exact hd)

/-- The averages of non-empty boxes can all be computed. -/
theorem mapM_compute_average_some (boxes : List ColorBox) (h : ∀ b ∈ boxes, 1 ≤ b.count) :
    ∃ palette : List Color, boxes.mapM compute_average = some palette ∧
      palette.length = boxes.length := by
  induction boxes with
  | nil => exact ⟨[], rfl, rfl⟩
  | cons b bs ih =>
      obtain ⟨p, hp, hlen⟩ := ih (fun b' hb' => h b' (List.mem_cons_of_mem b hb'))
      have hb := h b (List.mem_cons_self b bs)
      have hne : b.count ≠ 0 := by omega
      obtain ⟨c, hc⟩ : ∃ c, compute_average b = some c := by
        unfold compute_average
        simp only [if_neg hne]
        exact ⟨_, rfl⟩
      refine ⟨c :: p, ?_, by simp [hlen]⟩
      rw [List.mapM_cons, hc, hp]
      rfl

/-- For a well-formed frame with at least `K` different colours `median_cut`
returns a palette of exactly `K` entries. -/
theorem median_cut_succeeds (qsort : (Color → Color → Int) → List Color → List Color)
    (hq : QsortPermutes qsort) (frame : Image) (hwf : frame.WellFormed) (K : Nat) (hK : 1 ≤ K)
    (hd : K ≤ (all_colors frame).toFinset.card) :
    ∃ palette : List Color, median_cut qsort frame K = some palette ∧ palette.length = K := by
  have hpix : 1 ≤ frame.width * frame.height := by
    by_contra hz
    have h0 : frame.width * frame.height = 0 := by omega
    have : all_colors frame = [] := by
      unfold all_colors
      rw [h0]
      rfl
    rw [this] at hd
    simp at hd
    omega
  have hJ : ∀ b ∈ [initial_box frame],
      b.count = b.colors.length ∧ 1 ≤ b.count ∧ ∀ c ∈ b.colors, c.IsByte := by
    intro b hb
    rw [List.mem_singleton.mp hb]
    refine ⟨by simp [initial_box, all_colors], hpix, ?_⟩
    intro c hc
    obtain ⟨i, _, rfl⟩ := List.mem_map.mp hc
    exact pixel_color_isByte frame hwf i
  have hd' : K ≤ (boxes_multiset [initial_box frame]).toFinset.card := by
    rw [boxes_multiset_initial]
    simpa using hd
  have hall := median_cut_loop_nonempty qsort hq K K [initial_box frame] hJ hd'
  obtain ⟨palette, hp, hlen⟩ := mapM_compute_average_some (median_cut_boxes qsort frame K)
    (fun b hb => (hall b hb).2.1)
  refine ⟨palette, hp, ?_⟩
  rw [hlen]
  exact (median_cut_fills_color_depth qsort hq frame K hK hpix).1

/-! ## Theorems: the GIF writer -/

/-- The length of a sample array built pixel by pixel. -/
theorem ramp_length (n : Nat) :
    ((List.range n).flatMap (fun j => [j, 0, 0])).length = n * 3 := by
  induction n with
  | zero => rfl
  | succ m ihm =>
      rw [List.range_succ, List.flatMap_append, List.length_append, ihm]
      simp
      omega

/-- The three samples of pixel `i` in a sample array built pixel by pixel. -/
theorem ramp_chunk (n : Nat) :
    ∀ i, i < n →
      (((List.range n).flatMap (fun j => [j, 0, 0])).drop (i * 3)).take 3 = [i, 0, 0] := by
  induction n with
  | zero => intro i hi; omega
  | succ n ih =>
      intro i hi
      have hlen := ramp_length n
      rw [List.range_succ, List.flatMap_append]
      by_cases hlt : i < n
      · rw [List.drop_append_of_le_length (by rw [hlen]; omega),
          List.take_append_of_le_length (by rw [List.length_drop, hlen]; omega)]
        exact ih i hlt
      · have hin : i = n := by omega
        subst hin
        rw [List.drop_append_eq_append_drop, List.drop_of_length_le (by rw [hlen]), hlen]
        simp

/-- Pixel `i` of `frame_ramp` is `(i, 0, 0)`. -/
theorem pixel_color_frame_ramp (i : Nat) (hi : i < 256) :
    pixel_color frame_ramp i = ⟨i, 0, 0⟩ := by
  have hchunk := ramp_chunk 256 i hi
  have hget : ∀ k, k < 3 →
      frame_ramp.byte (i * 3 + k) = ([i, 0, 0] : List Nat).getD k 0 := by
    intro k hk
    unfold Image.byte
    rw [← hchunk, List.getD_eq_getElem?_getD, List.getD_eq_getElem?_getD,
      List.getElem?_take_of_lt hk, List.getElem?_drop]
    rfl
  unfold pixel_color
  have hch : frame_ramp.channels = 3 := rfl
  rw [hch]
  have h0 := hget 0 (by omega)
  have h1 := hget 1 (by omega)
  have h2 := hget 2 (by omega)
  simp only [Nat.add_zero] at h0
  rw [h0, h1, h2]
  rfl

/-- The colours of `frame_ramp`. -/
theorem all_colors_frame_ramp :
    all_colors frame_ramp = (List.range 256).map (fun i => (⟨i, 0, 0⟩ : Color)) := by
  unfold all_colors
  apply List.map_congr_left
  intro i hi
  exact pixel_color_frame_ramp i (List.mem_range.mp hi)

/-- The frame `frame_ramp` is well formed and has 256 different colours. -/
theorem frame_ramp_spec :
    frame_ramp.WellFormed ∧ 256 ≤ (all_colors frame_ramp).toFinset.card := by
  constructor
  · refine ⟨rfl, ?_, ?_⟩
    · show ((List.range 256).flatMap (fun i => [i, 0, 0])).length = 16 * 16 * 3
      exact ramp_length 256
    · intro v hv
      have hv' : v ∈ (List.range 256).flatMap (fun i => [i, 0, 0]) := hv
      rw [List.mem_flatMap] at hv'
      obtain ⟨i, hi, hvi⟩ := hv'
      have := List.mem_range.mp hi
      simp only [List.mem_cons, List.mem_singleton, List.not_mem_nil, or_false] at hvi
      omega
  · rw [all_colors_frame_ramp]
    have hnd : ((List.range 256).map (fun i => (⟨i, 0, 0⟩ : Color))).Nodup := by
      apply List.Nodup.map _ (List.nodup_range 256)
      intro a b hab
      simpa using hab
    rw [List.toFinset_card_of_nodup hnd]
    simp

/-- The graphics-control extension and the image descriptor of one pass through
the frame loop. -/
theorem write_gif_frame_filter (colormap : List Color) (frame : Image) (delay_time : Nat) :
    graphics_extensions (write_gif_frame colormap frame delay_time) =
      [GifCall.EGifPutExtension GRAPHICS_EXT_FUNC_CODE 5 (gce delay_time)] ∧
    extensions_and_descriptors (write_gif_frame colormap frame delay_time) =
      [GifCall.EGifPutExtension GRAPHICS_EXT_FUNC_CODE 5 (gce delay_time),
       GifCall.EGifPutImageDesc 0 0 frame.width frame.height false] := by
  unfold graphics_extensions extensions_and_descriptors write_gif_frame
  simp only [List.filter_append, List.filter_map]
  constructor
  · simp [List.filter_cons]
  · simp [List.filter_cons]

/-- The graphics-control extensions and image descriptors of the whole frame loop. -/
theorem write_gif_loop_filter (colormap : List Color) (frames : List Image)
    (delay_time : Nat) (n : Nat) :
    graphics_extensions ((List.range n).flatMap (fun i =>
        write_gif_frame colormap
          (frames.getD i { data := [], width := 0, height := 0, channels := 0 }) delay_time)) =
      List.replicate n (GifCall.EGifPutExtension GRAPHICS_EXT_FUNC_CODE 5 (gce delay_time)) ∧
    extensions_and_descriptors ((List.range n).flatMap (fun i =>
        write_gif_frame colormap
          (frames.getD i { data := [], width := 0, height := 0, channels := 0 }) delay_time)) =
      (List.range n).flatMap (fun i =>
        [GifCall.EGifPutExtension GRAPHICS_EXT_FUNC_CODE 5 (gce delay_time),
         GifCall.EGifPutImageDesc 0 0
           (frames.getD i { data := [], width := 0, height := 0, channels := 0 }).width
           (frames.getD i { data := [], width := 0, height := 0, channels := 0 }).height
           false]) := by
  induction n with
  | zero => exact ⟨rfl, rfl⟩
  | succ n ih =>
      obtain ⟨ih1, ih2⟩ := ih
      obtain ⟨h1, h2⟩ := write_gif_frame_filter colormap
        (frames.getD n { data := [], width := 0, height := 0, channels := 0 }) delay_time
      constructor
      · rw [List.range_succ, List.flatMap_append]
        unfold graphics_extensions at ih1 h1 ⊢
        rw [List.filter_append, ih1]
        simp only [List.flatMap_cons, List.flatMap_nil, List.append_nil]
        rw [h1, List.replicate_succ']
      · rw [List.range_succ, List.flatMap_append, List.flatMap_append]
        unfold extensions_and_descriptors at ih2 h2 ⊢
        rw [List.filter_append, ih2]
        simp only [List.flatMap_cons, List.flatMap_nil, List.append_nil]
        rw [h2]

/-- C11 (the code at the failing input): whenever `median_cut` gives a colour
map, `write_gif` with `N` frames and delay `D` hands giflib exactly `N`
graphics-control extensions, one before the image descriptor of each frame,
but each with the length 5 (`sizeof(gce)`) and the five bytes 4, 0x04, `D`'s
low byte, `D`'s high byte, 0: the block size 4 is handed over as the first byte
of the payload, not as its length. -/
theorem write_gif_graphics_extensions
    (qsort : (Color → Color → Int) → List Color → List Color) (frames : List Image)
    (N D : Nat) (colormap : List Color)
    (hcm : median_cut qsort
      (frames.getD 0 { data := [], width := 0, height := 0, channels := 0 }) COLOR_DEPTH =
        some colormap) :
    ∃ calls : List GifCall, write_gif qsort frames N D = Except.ok calls ∧
      graphics_extensions calls =
        List.replicate N
          (GifCall.EGifPutExtension GRAPHICS_EXT_FUNC_CODE 5 [4, 4, D % 256, D / 256 % 256, 0]) ∧
      extensions_and_descriptors calls =
        (List.range N).flatMap (fun i =>
          [GifCall.EGifPutExtension GRAPHICS_EXT_FUNC_CODE 5 [4, 4, D % 256, D / 256 % 256, 0],
           GifCall.EGifPutImageDesc 0 0
             (frames.getD i { data := [], width := 0, height := 0, channels := 0 }).width
             (frames.getD i { data := [], width := 0, height := 0, channels := 0 }).height
             false]) := by
  obtain ⟨h1, h2⟩ := write_gif_loop_filter colormap frames D N
  have hw : write_gif qsort frames N D = Except.ok
      ([GifCall.EGifOpenFileName,
        GifCall.EGifPutScreenDesc
          (frames.getD 0 { data := [], width := 0, height := 0, channels := 0 }).width
          (frames.getD 0 { data := [], width := 0, height := 0, channels := 0 }).height 8 0
          colormap,
        GifCall.EGifPutExtension APPLICATION_EXT_FUNC_CODE 16 app_ext] ++
       (List.range N).flatMap (fun i =>
          write_gif_frame colormap
            (frames.getD i { data := [], width := 0, height := 0, channels := 0 }) D) ++
       [GifCall.EGifCloseFile]) := by
    unfold write_gif
    simp only [hcm]
  refine ⟨_, hw, ?_, ?_⟩
  · unfold graphics_extensions at h1 ⊢
    rw [List.filter_append, List.filter_append, h1]
    simp [List.filter_cons, APPLICATION_EXT_FUNC_CODE, GRAPHICS_EXT_FUNC_CODE, gce]
  · unfold extensions_and_descriptors at h2 ⊢
    rw [List.filter_append, List.filter_append, h2]
    simp [List.filter_cons, APPLICATION_EXT_FUNC_CODE, GRAPHICS_EXT_FUNC_CODE, gce]

/-- Witness for C11's evaluation: 24 copies of `frame_ramp`, delay 3, the
insertion-sort `qsort`: 24 extensions of length 5 with the bytes 4, 4, 3, 0, 0. -/
theorem write_gif_graphics_extensions_witness :
    ∃ colormap : List Color,
      median_cut qsort_model
        ((List.replicate 24 frame_ramp).getD 0
          { data := [], width := 0, height := 0, channels := 0 }) COLOR_DEPTH = some colormap ∧
      ∃ calls : List GifCall,
        write_gif qsort_model (List.replicate 24 frame_ramp) 24 3 = Except.ok calls ∧
        graphics_extensions calls =
          List.replicate 24 (GifCall.EGifPutExtension GRAPHICS_EXT_FUNC_CODE 5 [4, 4, 3, 0, 0]) := by
  obtain ⟨colormap, hcm, _⟩ := median_cut_succeeds qsort_model qsort_model_permutes frame_ramp
    frame_ramp_spec.1 256 (by decide) frame_ramp_spec.2
  have hcm' : median_cut qsort_model
      ((List.replicate 24 frame_ramp).getD 0
        { data := [], width := 0, height := 0, channels := 0 }) COLOR_DEPTH = some colormap := hcm
  obtain ⟨calls, hw, hg, _⟩ :=
    write_gif_graphics_extensions qsort_model (List.replicate 24 frame_ramp) 24 3 colormap hcm'
  exact ⟨colormap, hcm', calls, hw, hg⟩

end Lube
